import Mathlib

/-!
Verification of the blind-order backend room coordination core.

The definitions below are a shallow embedding of the TypeScript sources:
the game rule engine (GameEngine in the lib file), the room creation route,
and the socket handlers (join-room, start-game, play-number, reset-game,
leave-room, disconnect).  Randomness (Math.random) and wall-clock values
(Date.now, generated event ids) are passed as explicit inputs; mutation is
modelled by returning the updated room; throwing is modelled by Except.
-/

namespace BlindOrder

/-- Lifecycle state of a room (GameRoom.state in the types file). -/
inductive RoomState where
  | lobby
  | playing
  | gameOver
  | victory
deriving DecidableEq, Repr

/-- One entry of the bounded event log (GameEvent).  The duck-typed data
payload carries no information used by the room logic and is omitted; the
generated id and wall-clock timestamp are explicit inputs where events are
appended. -/
structure GameEvent where
  eid : String
  etype : String
  timestamp : Int
deriving DecidableEq, Repr

/-- A seated player; `numbers` is the hand of currently unplayed numbers. -/
structure Player where
  id : String
  username : String
  numbers : List Int
deriving DecidableEq, Repr

/-- A room, with the fields the create-room route initializes. -/
structure GameRoom where
  id : String
  players : List Player
  timeline : List Int
  lives : Int
  maxLives : Int
  numbersPerPlayer : Int
  state : RoomState
  hostId : String
  gameEvents : List GameEvent
deriving DecidableEq, Repr

/-- GameConfig, as built by GameEngine.initializeGame. -/
structure GameConfig where
  maxLives : Int
  numbersPerPlayer : Int
  minNumber : Int
  maxNumber : Int
deriving DecidableEq, Repr

/-- JS `array.sort((a, b) => a - b)`: sort ascending. -/
def sortInts (l : List Int) : List Int := List.insertionSort (· ≤ ·) l

/-- All numbers currently held across the seated players
(`room.players.flatMap((p) => p.numbers)`). -/
def heldNumbers (r : GameRoom) : List Int := r.players.flatMap Player.numbers

/-- The sampling loop of GameEngine.generateAllPlayerNumbers: repeatedly
draw `num = floor(random * range) + minNumber` and keep the value when it
is unseen, until `total` values are collected.  The random stream is
explicit: each entry `d` of `draws` stands for one draw, reduced mod the
range size exactly as `floor(random * range)` lands in `[0, range)`. -/
def drawValue (cfg : GameConfig) (d : Nat) : Int :=
  cfg.minNumber + ((d % (cfg.maxNumber - cfg.minNumber + 1).toNat : Nat) : Int)

def collectUnique (cfg : GameConfig) (total : Nat) : List Nat → List Int → List Int
  | [], acc => acc
  | d :: rest, acc =>
    if total ≤ acc.length then acc
    else if drawValue cfg d ∈ acc then collectUnique cfg total rest acc
    else collectUnique cfg total rest (acc ++ [drawValue cfg d])

/-- The body of one Fisher-Yates iteration: swap positions i and j.
Out-of-range indices leave the list unchanged (never hit by the loop). -/
def listSwap (l : List Int) (i j : Nat) : List Int :=
  match l[i]?, l[j]? with
  | some x, some y => (l.set i y).set j x
  | _, _ => l

/-- The Fisher-Yates loop of generateAllPlayerNumbers: for position `i`
from `l.length - 1` down to 1, swap position i with a randomly drawn
position `j` in `[0, i]`.  The drawn indices are the explicit `swaps`
stream, reduced mod `i + 1` exactly as `floor(random * (i + 1))`. -/
def fisherYatesAux : Nat → List Nat → List Int → List Int
  | 0, _, l => l
  | _ + 1, [], l => l
  | i + 1, j :: js, l => fisherYatesAux i js (listSwap l (i + 1) (j % (i + 2)))

/-- The shuffle of generateAllPlayerNumbers. -/
def fisherYates (l : List Int) (swaps : List Nat) : List Int :=
  fisherYatesAux (l.length - 1) swaps l

/-- GameEngine.generateAllPlayerNumbers.  Randomness is explicit: `draws`
feeds the sampling loop and `swaps` the shuffle; the throw on capacity
excess is `Except.error`. -/
def generateAllPlayerNumbers (cfg : GameConfig) (playerCount : Nat)
    (draws swaps : List Nat) : Except String (List (List Int)) :=
  if cfg.maxNumber - cfg.minNumber + 1 < (playerCount : Int) * cfg.numbersPerPlayer then
    Except.error "Not enough unique numbers in range."
  else
    Except.ok ((List.range playerCount).map (fun playerIndex =>
      sortInts (((fisherYates
          (collectUnique cfg ((playerCount : Int) * cfg.numbersPerPlayer).toNat draws [])
          swaps).drop (playerIndex * cfg.numbersPerPlayer.toNat)).take
        cfg.numbersPerPlayer.toNat)))

/-- GameEngine.getNextExpectedNumber: the first element, in ascending
order, of the merged hands that is not yet on the timeline; -1 when every
held number was already played. -/
def getNextExpectedNumber (r : GameRoom) : Int :=
  match (sortInts (r.players.flatMap Player.numbers)).find? (fun num => !r.timeline.contains num) with
  | some num => num
  | none => -1

/-- The tagged reasons of validateMove.  The source returns one distinct
message string per reason; the out-of-order message carries the expected
and the played number. -/
inductive MoveError where
  | notPlaying
  | unknownPlayer
  | notHeld
  | alreadyPlayed
  | outOfOrder (expected got : Int)
deriving DecidableEq, Repr

/-- GameEngine.validateMove; `none` means valid.  The function neither
throws nor mutates the room: it is total and only reads `r`. -/
def validateMove (r : GameRoom) (pid : String) (n : Int) : Option MoveError :=
  if r.state ≠ .playing then some .notPlaying
  else
    match r.players.find? (fun p => p.id == pid) with
    | none => some .unknownPlayer
    | some player =>
      if n ∉ player.numbers then some .notHeld
      else if n ∈ r.timeline then some .alreadyPlayed
      else
        let expected := getNextExpectedNumber r
        if n ≠ expected then some (.outOfOrder expected n)
        else none

/-- The result descriptor of GameEngine.makeMove; absent optional fields of
the JS object are `false` and `none`. -/
structure MoveResult where
  success : Bool
  gameOver : Bool
  victory : Bool
  error : Option MoveError
  livesLost : Option Int
deriving DecidableEq, Repr

/-- The hand update of makeMove: the first player whose id matches the
mover has every copy of `n` filtered out of the hand. -/
def removeNumberFromFirst : List Player → String → Int → List Player
  | [], _, _ => []
  | p :: rest, pid, n =>
    if p.id == pid then { p with numbers := p.numbers.filter (fun m => m != n) } :: rest
    else p :: removeNumberFromFirst rest pid n

/-- GameEngine.makeMove: re-validate, on failure decrement lives (entering
game-over at 0 or below), on success append to the timeline, shrink the
hand, and enter victory when every hand is empty. -/
def makeMove (r : GameRoom) (pid : String) (n : Int) : GameRoom × MoveResult :=
  match validateMove r pid n with
  | some e =>
    let lives := r.lives - 1
    if lives ≤ 0 then
      ({ r with lives := lives, state := .gameOver },
       ⟨false, true, false, some e, some 1⟩)
    else
      ({ r with lives := lives },
       ⟨false, false, false, some e, some 1⟩)
  | none =>
    let players := removeNumberFromFirst r.players pid n
    let r₁ : GameRoom := { r with timeline := r.timeline ++ [n], players := players }
    if r₁.players.all (fun p => p.numbers.isEmpty) then
      ({ r₁ with state := .victory }, ⟨true, false, true, none, none⟩)
    else
      (r₁, ⟨true, false, false, none, none⟩)

/-- The read-only projection built by GameEngine.getGameState. -/
structure GameStateView where
  state : RoomState
  lives : Int
  maxLives : Int
  timeline : List Int
  progress : Int
  remainingNumbers : List Int
  gameEvents : List GameEvent
deriving DecidableEq, Repr

/-- GameEngine.getGameState.  `Math.round(100 * played / total)` on the
nonnegative ratios that occur equals `(200 * played + total) / (2 * total)`
in integer division. -/
def getGameState (r : GameRoom) : GameStateView :=
  let allNumbers := sortInts (r.players.flatMap Player.numbers)
  let totalNumbers : Int := (r.players.length : Int) * r.numbersPerPlayer
  let playedNumbers : Int := (r.timeline.length : Int)
  let progress : Int :=
    if 0 < totalNumbers then (200 * playedNumbers + totalNumbers) / (2 * totalNumbers) else 0
  ⟨r.state, r.lives, r.maxLives, r.timeline, progress,
   allNumbers.filter (fun num => !r.timeline.contains num), r.gameEvents⟩

/-- GameEngine.addGameEvent: append and keep only the last 50 entries. -/
def addGameEvent (r : GameRoom) (etype eid : String) (ts : Int) : GameRoom :=
  let events := r.gameEvents ++ [⟨eid, etype, ts⟩]
  { r with gameEvents := if 50 < events.length then events.drop (events.length - 50) else events }

/-- GameEngine.resetGame. -/
def resetGame (r : GameRoom) : GameRoom :=
  { r with players := r.players.map (fun p => { p with numbers := [] }),
           timeline := [], lives := r.maxLives, state := .lobby, gameEvents := [] }

/-- RoomService.createRoom / the fresh-room literal of the create route. -/
def createRoom (roomId : String) (maxLives numbersPerPlayer : Int) : GameRoom :=
  ⟨roomId, [], [], maxLives, maxLives, numbersPerPlayer, .lobby, "", []⟩

/-- The POST create-room route.  Response sends attempted by the handler
are recorded in order as (status, message) pairs; the first one is what the
client receives (later sends on an answered response throw).  The handler
has no early return after its 400 sends, so RoomService.createRoom runs
unconditionally and the new room always enters the store. -/
def createRoomHandler (store : List GameRoom) (roomId : String)
    (maxLives numbersPerPlayer : Int) : List GameRoom × List (Int × String) :=
  let resps :=
    (if maxLives < 1 ∨ 10 < maxLives then
       [((400 : Int), "Max lives must be between 1 and 10")] else []) ++
    (if numbersPerPlayer < 1 ∨ 20 < numbersPerPlayer then
       [((400 : Int), "Numbers per player must be between 1 and 20")] else [])
  (store ++ [createRoom roomId maxLives numbersPerPlayer], resps ++ [((200 : Int), "room")])

/-- Messages of the outbound surface. -/
inductive Msg where
  | errMsg (m : String)
  | roomUpdated (r : GameRoom)
  | gameStateUpdated (g : GameStateView)
  | roomDeleted (reason : String)
  | leftRoom
deriving DecidableEq

/-- An emission: unicast to the requesting connection (socket.emit) or
broadcast to every subscriber of the room channel (io.to(roomId).emit). -/
inductive Emit where
  | unicast (m : Msg)
  | broadcast (m : Msg)
deriving DecidableEq

/-- The join-room handler, after the room was found in the store; `sid` is
the requesting connection identity. -/
def joinRoom (r : GameRoom) (sid playerName : String) (isHost : Bool) : GameRoom × List Emit :=
  if r.state = .playing ∧ r.players.find? (fun p => p.id == sid) = none then
    (r, [.unicast (.errMsg "Cannot join game in progress")])
  else
    match r.players.find? (fun p => p.id == sid) with
    | some _ =>
      (r, .broadcast (.roomUpdated r) ::
          (if r.state ≠ .lobby then [.unicast (.gameStateUpdated (getGameState r))] else []))
    | none =>
      let player : Player := ⟨sid, if playerName = "" then "Anonymous" else playerName, []⟩
      let r₁ : GameRoom := { r with players := r.players ++ [player] }
      let r₂ : GameRoom := if isHost ∨ r₁.hostId = "" then { r₁ with hostId := sid } else r₁
      (r₂, .broadcast (.roomUpdated r₂) ::
           (if r₂.state ≠ .lobby then [.unicast (.gameStateUpdated (getGameState r₂))] else []))

/-- The hand assignment of GameEngine.initializeGame. -/
def assignHands (ps : List Player) (hands : List (List Int)) : List Player :=
  List.zipWith (fun p h => { p with numbers := h }) ps hands

/-- GameEngine.initializeGame: deal with the fixed range [1, 100], then
clear the timeline, restore lives and enter playing.  Also returns the
dealt hands, which the specification ghost state records. -/
def initGame (r : GameRoom) (draws swaps : List Nat) :
    Except String (GameRoom × List (List Int)) :=
  match generateAllPlayerNumbers ⟨r.maxLives, r.numbersPerPlayer, 1, 100⟩
      r.players.length draws swaps with
  | .error e => .error e
  | .ok hands =>
    .ok ({ r with players := assignHands r.players hands,
                  timeline := [], lives := r.maxLives, state := .playing }, hands)

/-- The start-game handler up to and including initializeGame.  The handler
checks the host, the player count and the capacity, and never checks the
lifecycle state. -/
def startResult (r : GameRoom) (sid : String) (draws swaps : List Nat) :
    Except String (GameRoom × List (List Int)) :=
  if r.hostId ≠ sid then .error "Only host can start the game"
  else if r.players.length < 2 then .error "Need at least 2 players to start"
  else if (100 : Int) < (r.players.length : Int) * r.numbersPerPlayer then
    .error "Not enough unique numbers available."
  else
    match initGame r draws swaps with
    | .error e => .error ("Failed to start game: " ++ e)
    | .ok rh => .ok rh

/-- The start-game handler: on failure a unicast error, on success the
game-started event and the two broadcasts. -/
def startGame (r : GameRoom) (sid : String) (draws swaps : List Nat)
    (eid : String) (ts : Int) : GameRoom × List Emit :=
  match startResult r sid draws swaps with
  | .error m => (r, [.unicast (.errMsg m)])
  | .ok (r₁, _) =>
    let r₂ := addGameEvent r₁ "game-started" eid ts
    (r₂, [.broadcast (.roomUpdated r₂), .broadcast (.gameStateUpdated (getGameState r₂))])

/-- The play-number handler: makeMove, the move / game-ended events, then
the two broadcasts.  It performs no state or membership check of its own. -/
def playNumber (r : GameRoom) (sid : String) (n : Int)
    (eid₁ eid₂ : String) (ts : Int) : GameRoom × List Emit :=
  let res := makeMove r sid n
  let r₂ :=
    if res.2.success then
      let ra := addGameEvent res.1 "move-made" eid₁ ts
      if res.2.victory then addGameEvent ra "game-ended" eid₂ ts else ra
    else
      let ra := addGameEvent res.1 "move-failed" eid₁ ts
      if res.2.gameOver then addGameEvent ra "game-ended" eid₂ ts else ra
  (r₂, [.broadcast (.roomUpdated r₂), .broadcast (.gameStateUpdated (getGameState r₂))])

/-- The reset-game handler: host only. -/
def resetGameHandler (r : GameRoom) (sid eid : String) (ts : Int) : GameRoom × List Emit :=
  if r.hostId ≠ sid then (r, [.unicast (.errMsg "Only host can reset the game")])
  else
    let r₁ := addGameEvent (resetGame r) "game-reset" eid ts
    (r₁, [.broadcast (.roomUpdated r₁), .broadcast (.gameStateUpdated (getGameState r₁))])

/-- handlePlayerLeave with a known room id.  `none` in the first component
means the room was deleted from the store. -/
def handlePlayerLeave (r : GameRoom) (sid : String) : Option GameRoom × List Emit :=
  let isHost := r.hostId = sid
  let wasInLobby := r.state = RoomState.lobby
  let remaining := r.players.filter (fun p => p.id != sid)
  if isHost ∧ wasInLobby then
    (none, [.broadcast (.roomDeleted "Host left during lobby")])
  else
    match remaining with
    | [] => (none, [])
    | p₀ :: rest =>
      let r₁ : GameRoom := { r with players := p₀ :: rest }
      let r₂ : GameRoom := if isHost then { r₁ with hostId := p₀.id } else r₁
      (some r₂, .broadcast (.roomUpdated r₂) ::
        (if r₂.state ≠ .lobby then [.broadcast (.gameStateUpdated (getGameState r₂))] else []))

/-- The leave-room socket handler: handlePlayerLeave, then the unicast
left-room acknowledgement. -/
def leaveRoomHandler (r : GameRoom) (sid : String) : Option GameRoom × List Emit :=
  let out := handlePlayerLeave r sid
  (out.1, out.2 ++ [.unicast .leftRoom])

/-- The disconnect handler calls handlePlayerLeave without a room id; the
code cannot locate the room (it logs "skipping player leave handling") and
returns before looking any room up, so every room is left untouched and
nothing is emitted. -/
def handleDisconnect (r : GameRoom) (_sid : String) : Option GameRoom × List Emit :=
  (some r, [])

/-- Ghost-extended state for the operational model: the room together with
the flattened list of numbers dealt at the last successful start (`orig`)
and the unplayed numbers that departed with leaving players since then
(`gone`). -/
structure GState where
  room : GameRoom
  orig : List Int
  gone : List Int
deriving DecidableEq, Repr

/-- join-room step on the ghost state. -/
def stepJoinG (s : GState) (sid name : String) (isHost : Bool) : GState :=
  ⟨(joinRoom s.room sid name isHost).1, s.orig, s.gone⟩

/-- start-game step on the ghost state: a successful start resets the
ghosts to the freshly dealt numbers. -/
def stepStartG (s : GState) (sid : String) (draws swaps : List Nat)
    (eid : String) (ts : Int) : GState :=
  match startResult s.room sid draws swaps with
  | .error _ => s
  | .ok (r₁, hands) => ⟨addGameEvent r₁ "game-started" eid ts, hands.flatten, []⟩

/-- play-number step on the ghost state. -/
def stepPlayG (s : GState) (sid : String) (n : Int) (eid₁ eid₂ : String) (ts : Int) : GState :=
  ⟨(playNumber s.room sid n eid₁ eid₂ ts).1, s.orig, s.gone⟩

/-- leave-room step on the ghost state: the unplayed numbers of the
departing player move to `gone`; `none` when the room is destroyed. -/
def stepLeaveG (s : GState) (sid : String) : Option GState :=
  match (handlePlayerLeave s.room sid).1 with
  | none => none
  | some r₁ =>
    some ⟨r₁, s.orig,
      s.gone ++ (s.room.players.filter (fun p => p.id == sid)).flatMap Player.numbers⟩

/-- reset-game step on the ghost state. -/
def stepResetG (s : GState) (sid eid : String) (ts : Int) : GState :=
  ⟨(resetGameHandler s.room sid eid ts).1, s.orig, s.gone⟩

/-- One serialized room operation, as dispatched by the socket handlers. -/
inductive Step : GState → GState → Prop where
  | join (s : GState) (sid name : String) (isHost : Bool) :
      Step s (stepJoinG s sid name isHost)
  | start (s : GState) (sid : String) (draws swaps : List Nat) (eid : String) (ts : Int) :
      Step s (stepStartG s sid draws swaps eid ts)
  | play (s : GState) (sid : String) (n : Int) (eid₁ eid₂ : String) (ts : Int) :
      Step s (stepPlayG s sid n eid₁ eid₂ ts)
  | leave (s s₁ : GState) (sid : String) (h : stepLeaveG s sid = some s₁) : Step s s₁
  | reset (s : GState) (sid eid : String) (ts : Int) :
      Step s (stepResetG s sid eid ts)

/-- Reachability by any sequence of room operations. -/
def Reach : GState → GState → Prop := Relation.ReflTransGen Step

/-- A state immediately after a successful start-game request. -/
def FreshlyStarted (s : GState) : Prop :=
  ∃ r sid draws swaps r₁ hands eid ts,
    startResult r sid draws swaps = Except.ok (r₁, hands) ∧
    s.room = addGameEvent r₁ "game-started" eid ts ∧
    s.orig = hands.flatten ∧ s.gone = []

/-- The ghost state of a freshly created room. -/
def initialGState (roomId : String) (maxLives numbersPerPlayer : Int) : GState :=
  ⟨createRoom roomId maxLives numbersPerPlayer, [], []⟩

/-- The timeline and hand invariant maintained while a room is playing. -/
def Inv (s : GState) : Prop :=
  s.room.state = .playing →
    s.room.timeline.Nodup ∧
    s.room.timeline.Chain' (· < ·) ∧
    (heldNumbers s.room).Nodup ∧
    (∀ t ∈ s.room.timeline, ∀ x ∈ heldNumbers s.room, t < x) ∧
    (∀ t ∈ s.room.timeline, t ∉ s.gone) ∧
    (∀ x ∈ heldNumbers s.room, x ∉ s.gone) ∧
    (∀ x : Int, x ∈ s.orig ↔ (x ∈ s.room.timeline ∨ x ∈ heldNumbers s.room ∨ x ∈ s.gone))

/-- Discriminator for emissions: true exactly for channel broadcasts. -/
def isBroadcast : Emit → Bool
  | .broadcast _ => true
  | .unicast _ => false

/-- The lives part of the reachability invariant: the configured maximum
never changes and a playing room always has at least one life. -/
def LivesInv (ml : Int) (s : GState) : Prop :=
  s.room.maxLives = ml ∧ (s.room.state = .playing → 1 ≤ s.room.lives)

/-! ## Concrete rooms and states used by witnesses and counterexamples -/

/-- A playing room with two seated players, used to witness the makeMove
specification. -/
def c3room : GameRoom :=
  ⟨"C3", [⟨"a", "A", [3, 5]⟩, ⟨"b", "B", [4]⟩], [], 2, 3, 2, .playing, "a", []⟩

/-- A playing room whose lives already stand at 0; a rejected move sends
lives to -1. -/
def c3badRoom : GameRoom := ⟨"C3X", [], [], 0, 3, 6, .playing, "", []⟩

/-- A playing room used to witness the validateMove specification. -/
def c5room : GameRoom :=
  ⟨"C5", [⟨"a", "A", [3, 5]⟩, ⟨"b", "B", [4]⟩], [], 3, 3, 2, .playing, "a", []⟩

/-- A playing room in which the host can issue start-game: the handler does
not check the lifecycle state, so the start succeeds mid-game. -/
def c6room : GameRoom :=
  ⟨"C6", [⟨"h", "H", [5]⟩, ⟨"b", "B", [9]⟩], [], 1, 3, 1, .playing, "h", []⟩

/-- A playing room with two seated players, used for the rejoin claim. -/
def c8room : GameRoom :=
  ⟨"C8", [⟨"a", "A", [1]⟩, ⟨"b", "B", [2]⟩], [], 3, 3, 1, .playing, "a", []⟩

/-- A finished room (game-over) a newcomer may still join. -/
def c10room : GameRoom :=
  ⟨"C10", [⟨"a", "A", []⟩, ⟨"b", "B", []⟩], [], 0, 3, 1, .gameOver, "a", []⟩

/-- A playing room a newcomer may not join. -/
def c10proom : GameRoom :=
  ⟨"C10P", [⟨"a", "A", [1]⟩, ⟨"b", "B", [2]⟩], [], 3, 3, 1, .playing, "a", []⟩

/-- A lobby room with a host and one further player. -/
def c7droom : GameRoom :=
  ⟨"C7D", [⟨"p1", "A", []⟩, ⟨"p2", "B", []⟩], [], 3, 3, 6, .lobby, "p1", []⟩

/-- A playing room whose host is about to leave. -/
def c7proom : GameRoom :=
  ⟨"C7P", [⟨"p1", "A", [1]⟩, ⟨"p2", "B", [2]⟩], [], 3, 3, 1, .playing, "p1", []⟩

/-- Operation chain: maxLives 1, two joins, a start dealing 3 and 7, then
two rejected moves; the second one is played in the game-over state and
drives lives to -1. -/
def c4s0 : GState := initialGState "R" 1 1

def c4s1 : GState := stepJoinG c4s0 "h" "Hope" true

def c4s2 : GState := stepJoinG c4s1 "b" "Bee" false

def c4s3 : GState := stepStartG c4s2 "h" [2, 6] [0] "e1" 0

def c4s4 : GState := stepPlayG c4s3 "b" 7 "e2" "e3" 0

def c4bad : GState := stepPlayG c4s4 "b" 7 "e4" "e5" 0

/-- Operation chain: maxLives 2, two joins, a start; then one rejected move
leaves the room playing with a single life, after which a second start from
the host raises lives back to 2 while the room stays playing. -/
def c4t0 : GState := initialGState "R2" 2 1

def c4t1 : GState := stepJoinG c4t0 "h" "Hope" true

def c4t2 : GState := stepJoinG c4t1 "b" "Bee" false

def c4t3 : GState := stepStartG c4t2 "h" [2, 6] [0] "f1" 0

def c4mid : GState := stepPlayG c4t3 "b" 7 "f2" "f3" 0

/-- The freshly started state c4t3 after the non-host player leaves: the
room stays playing and the unplayed 3 is neither held nor on the
timeline. -/
def c1left : GState := (stepLeaveG c4t3 "b").getD c4t3

/-! ## Helper lemmas -/

theorem sortInts_sorted (l : List Int) : (sortInts l).Sorted (· ≤ ·) :=
  List.sorted_insertionSort _ l

theorem sortInts_perm (l : List Int) : (sortInts l).Perm l :=
  List.perm_insertionSort _ l

theorem sortInts_mem {l : List Int} {x : Int} : x ∈ sortInts l ↔ x ∈ l :=
  (sortInts_perm l).mem_iff

theorem find?_sorted_min {l : List Int} {p : Int → Bool} {e : Int}
    (hs : l.Sorted (· ≤ ·)) (h : l.find? p = some e) :
    p e = true ∧ e ∈ l ∧ ∀ x ∈ l, p x = true → e ≤ x := by
  induction l with
  | nil => simp at h
  | cons a t ih =>
    rw [List.sorted_cons] at hs
    by_cases hp : p a
    · rw [List.find?_cons_of_pos _ hp] at h
      cases h
      refine ⟨hp, List.mem_cons_self _ _, ?_⟩
      intro x hx _
      rcases List.mem_cons.mp hx with rfl | hx
      · exact le_refl _
      · exact hs.1 x hx
    · rw [List.find?_cons_of_neg _ (by simpa using hp)] at h
      obtain ⟨he, hm, hmin⟩ := ih hs.2 h
      refine ⟨he, List.mem_cons_of_mem _ hm, ?_⟩
      intro x hx hpx
      rcases List.mem_cons.mp hx with rfl | hx
      · exact absurd hpx hp
      · exact hmin x hx hpx

theorem getNextExpectedNumber_min {r : GameRoom} {n : Int}
    (hn : n ∈ heldNumbers r) (hnt : n ∉ r.timeline) :
    getNextExpectedNumber r ∈ heldNumbers r ∧ getNextExpectedNumber r ∉ r.timeline ∧
      ∀ x ∈ heldNumbers r, x ∉ r.timeline → getNextExpectedNumber r ≤ x := by
  have hmem : n ∈ sortInts (r.players.flatMap Player.numbers) := sortInts_mem.mpr hn
  have hsome : ((sortInts (r.players.flatMap Player.numbers)).find?
      (fun num => !r.timeline.contains num)).isSome := by
    rw [List.find?_isSome]
    exact ⟨n, hmem, by simpa using hnt⟩
  obtain ⟨e, he⟩ := Option.isSome_iff_exists.mp hsome
  obtain ⟨hpe, hme, hmin⟩ := find?_sorted_min (sortInts_sorted _) he
  have hexp : getNextExpectedNumber r = e := by
    unfold getNextExpectedNumber
    rw [he]
  rw [hexp]
  refine ⟨sortInts_mem.mp hme, by simpa using hpe, ?_⟩
  intro x hx hxt
  exact hmin x (sortInts_mem.mpr hx) (by simpa using hxt)

theorem getNextExpectedNumber_eq {r : GameRoom} {n : Int}
    (hn : n ∈ heldNumbers r) (hnt : n ∉ r.timeline)
    (hmin : ∀ x ∈ heldNumbers r, x ∉ r.timeline → n ≤ x) :
    getNextExpectedNumber r = n := by
  obtain ⟨hme, hmt, hlow⟩ := getNextExpectedNumber_min hn hnt
  exact le_antisymm (hlow n hn hnt) (hmin _ hme hmt)

theorem validateMove_none_iff (r : GameRoom) (pid : String) (n : Int) :
    validateMove r pid n = none ↔
      (r.state = .playing ∧
       (∃ p, r.players.find? (fun q => q.id == pid) = some p ∧ n ∈ p.numbers) ∧
       n ∉ r.timeline ∧
       (∀ x ∈ heldNumbers r, x ∉ r.timeline → n ≤ x)) := by
  unfold validateMove
  by_cases hst : r.state = .playing
  · cases hf : r.players.find? (fun q => q.id == pid) with
    | none => simp [hst, hf]
    | some p =>
      by_cases hm : n ∈ p.numbers
      · by_cases ht : n ∈ r.timeline
        · simp [hst, hf, hm, ht]
        · have hheld : n ∈ heldNumbers r :=
            List.mem_flatMap.mpr ⟨p, List.mem_of_find?_eq_some hf, hm⟩
          by_cases hexp : n = getNextExpectedNumber r
          · have hmin : ∀ x ∈ heldNumbers r, x ∉ r.timeline → n ≤ x := by
              rw [hexp]
              exact (getNextExpectedNumber_min hheld ht).2.2
            rw [← hexp]
            simp [hst, hf, hm, ht]
            exact hmin
          · have hnotmin : ¬∀ x ∈ heldNumbers r, x ∉ r.timeline → n ≤ x := by
              intro hmin
              exact hexp (getNextExpectedNumber_eq hheld ht hmin).symm
            simp [hst, hf, hm, ht, hexp, hnotmin]
      · simp [hst, hf, hm]
  · simp [hst]

theorem validateMove_tags (r : GameRoom) (pid : String) (n : Int) :
    ∀ e, validateMove r pid n = some e →
      ((e = .notPlaying → r.state ≠ .playing) ∧
       (e = .unknownPlayer →
          r.state = .playing ∧ r.players.find? (fun q => q.id == pid) = none) ∧
       (e = .notHeld → ∃ p, r.players.find? (fun q => q.id == pid) = some p ∧ n ∉ p.numbers) ∧
       (e = .alreadyPlayed → n ∈ r.timeline) ∧
       (∀ exp got, e = .outOfOrder exp got →
          got = n ∧ exp = getNextExpectedNumber r ∧ n ≠ exp)) := by
  intro e he
  unfold validateMove at he
  by_cases hst : r.state = .playing
  · cases hf : r.players.find? (fun q => q.id == pid) with
    | none =>
      rw [hf] at he
      simp [hst] at he
      subst he
      simp [hst, hf]
    | some p =>
      rw [hf] at he
      by_cases hm : n ∈ p.numbers
      · by_cases ht : n ∈ r.timeline
        · simp [hst, hm, ht] at he
          subst he
          simp [ht]
        · simp only [hst] at he
          rw [if_neg (by simp)] at he
          rw [if_neg (not_not_intro hm), if_neg ht] at he
          by_cases hexp : n = getNextExpectedNumber r
          · rw [← hexp] at he
            simp at he
          · rw [if_pos hexp] at he
            cases he
            simp [hexp]
      · simp [hst, hm] at he
        subst he
        refine ⟨by simp, by simp, fun _ => ⟨p, rfl, hm⟩, by simp, by simp⟩
  · simp [hst] at he
    subst he
    simp [hst]

theorem removeNumberFromFirst_decomp {ps : List Player} {pid : String} {p : Player}
    (hf : ps.find? (fun q => q.id == pid) = some p) (n : Int) :
    ∃ A B, ps = A ++ p :: B ∧ (∀ q ∈ A, q.id ≠ pid) ∧
      removeNumberFromFirst ps pid n =
        A ++ { p with numbers := p.numbers.filter (fun m => m != n) } :: B := by
  induction ps with
  | nil => simp at hf
  | cons a t ih =>
    by_cases ha : a.id = pid
    · rw [List.find?_cons_of_pos _ (by simpa using ha)] at hf
      cases hf
      refine ⟨[], t, rfl, by simp, ?_⟩
      simp [removeNumberFromFirst, ha]
    · rw [List.find?_cons_of_neg _ (by simpa using ha)] at hf
      obtain ⟨A, B, hps, hA, hrm⟩ := ih hf
      refine ⟨a :: A, B, by rw [hps]; rfl, ?_, ?_⟩
      · intro q hq
        rcases List.mem_cons.mp hq with rfl | hq
        · exact ha
        · exact hA q hq
      · simp [removeNumberFromFirst, ha, hrm]

/-! ## C3: makeMove effects -/

/-- C3 (amended).  For every room, playerId and number: if validateMove
rejects the move, makeMove decrements lives by exactly 1, leaves the
timeline and every player hand unchanged, and the resulting state is
game-over exactly when lives reach 0 or below on that decrement (or the
state already was game-over, which is then left in place); if validateMove
accepts, makeMove appends the number to the timeline, removes it from the
hand of the seated player, leaves lives unchanged, and sets state to
victory exactly when every player hand is empty afterwards. -/
theorem makeMove_spec (r : GameRoom) (pid : String) (n : Int) :
    (∀ e, validateMove r pid n = some e →
       (makeMove r pid n).1.lives = r.lives - 1 ∧
       (makeMove r pid n).1.timeline = r.timeline ∧
       (makeMove r pid n).1.players = r.players ∧
       ((makeMove r pid n).1.state = .gameOver ↔ (r.lives - 1 ≤ 0 ∨ r.state = .gameOver))) ∧
    (validateMove r pid n = none →
       (makeMove r pid n).1.timeline = r.timeline ++ [n] ∧
       (makeMove r pid n).1.lives = r.lives ∧
       (∃ A B p, r.players = A ++ p :: B ∧ (∀ q ∈ A, q.id ≠ pid) ∧ p.id = pid ∧
          n ∈ p.numbers ∧
          (makeMove r pid n).1.players =
            A ++ { p with numbers := p.numbers.filter (fun m => m != n) } :: B) ∧
       ((makeMove r pid n).1.state = .victory ↔
          ∀ p ∈ (makeMove r pid n).1.players, p.numbers = [])) := by
  constructor
  · intro e hv
    simp only [makeMove, hv]
    by_cases hl : r.lives - 1 ≤ 0
    · simp [hl]
    · simp [hl]
  · intro hv
    obtain ⟨hst, ⟨p, hf, hm⟩, hnt, hmin⟩ := (validateMove_none_iff r pid n).mp hv
    obtain ⟨A, B, hps, hA, hrm⟩ := removeNumberFromFirst_decomp hf n
    have hpid : p.id = pid := by simpa using List.find?_some hf
    simp only [makeMove, hv]
    by_cases hall :
        (removeNumberFromFirst r.players pid n).all (fun q => q.numbers.isEmpty) = true
    · simp only [hall, if_pos]
      refine ⟨trivial, trivial, ⟨A, B, p, hps, hA, hpid, hm, hrm⟩, ?_⟩
      constructor
      · intro _ q hq
        have := List.all_eq_true.mp hall q hq
        simpa [List.isEmpty_iff] using this
      · intro _
        trivial
    · simp only [hall, if_neg, Bool.false_eq_true, not_false_iff]
      refine ⟨trivial, trivial, ⟨A, B, p, hps, hA, hpid, hm, hrm⟩, ?_⟩
      constructor
      · intro habs
        rw [hst] at habs
        exact absurd habs (by decide)
      · intro hall2
        exfalso
        apply hall
        rw [List.all_eq_true]
        intro q hq
        rw [List.isEmpty_iff]
        exact hall2 q hq

/-- C3 counterexample: a playing room whose lives stand at 0.  The rejected
move is charged a life, lives become -1 (they never reach 0), and the state
is nevertheless set to game-over, contradicting the claim that game-over is
entered exactly when lives reach 0 on the decrement. -/
theorem makeMove_gameOver_counterexample :
    (makeMove c3badRoom "x" 5).1.state = .gameOver ∧
    (makeMove c3badRoom "x" 5).1.lives = -1 ∧
    ¬((makeMove c3badRoom "x" 5).1.lives = 0) ∧
    (makeMove c3badRoom "x" 5).1.lives = c3badRoom.lives - 1 := by decide

/-- Witness for C3: both branches of makeMove_spec applied at concrete
inputs. -/
theorem makeMove_spec_witness :
    (makeMove c3room "x" 9).1.lives = c3room.lives - 1 ∧
    (makeMove c3room "a" 3).1.timeline = c3room.timeline ++ [3] :=
  ⟨((makeMove_spec c3room "x" 9).1 MoveError.unknownPlayer (by decide)).1,
   ((makeMove_spec c3room "a" 3).2 (by decide)).1⟩

/-! ## C5: validateMove -/

/-- C5.  validateMove accepts exactly when the room is playing, a player
with the given id is seated, that player holds the number, the number was
not already played, and the number is the least number, across all current
hands, absent from the timeline; every rejection carries one of the five
tags and the condition of the returned tag does fail.  The embedding is a
total function from the room to a verdict only, reflecting that the source
neither throws nor mutates the room. -/
theorem validateMove_spec (r : GameRoom) (pid : String) (n : Int) :
    (validateMove r pid n = none ↔
      (r.state = .playing ∧
       (∃ p, r.players.find? (fun q => q.id == pid) = some p ∧ n ∈ p.numbers) ∧
       n ∉ r.timeline ∧
       (∀ x ∈ heldNumbers r, x ∉ r.timeline → n ≤ x))) ∧
    (∀ e, validateMove r pid n = some e →
      ((e = .notPlaying → r.state ≠ .playing) ∧
       (e = .unknownPlayer →
          r.state = .playing ∧ r.players.find? (fun q => q.id == pid) = none) ∧
       (e = .notHeld → ∃ p, r.players.find? (fun q => q.id == pid) = some p ∧ n ∉ p.numbers) ∧
       (e = .alreadyPlayed → n ∈ r.timeline) ∧
       (∀ exp got, e = .outOfOrder exp got →
          got = n ∧ exp = getNextExpectedNumber r ∧ n ≠ exp))) :=
  ⟨validateMove_none_iff r pid n, validateMove_tags r pid n⟩

/-- Witness for C5: the acceptance direction applied at a concrete room. -/
theorem validateMove_spec_witness : validateMove c5room "a" 3 = none :=
  (validateMove_spec c5room "a" 3).1.mpr
    ⟨by decide, ⟨⟨"a", "A", [3, 5]⟩, by decide, by decide⟩, by decide, by decide⟩

/-! ## Lemmas on the number generator -/

theorem drawValue_range (cfg : GameConfig) (d : Nat)
    (hrange : 0 < (cfg.maxNumber - cfg.minNumber + 1).toNat) :
    cfg.minNumber ≤ drawValue cfg d ∧ drawValue cfg d ≤ cfg.maxNumber := by
  unfold drawValue
  constructor
  · have : (0 : Int) ≤ ((d % (cfg.maxNumber - cfg.minNumber + 1).toNat : Nat) : Int) := by
      positivity
    omega
  · have hlt : d % (cfg.maxNumber - cfg.minNumber + 1).toNat <
        (cfg.maxNumber - cfg.minNumber + 1).toNat := Nat.mod_lt _ hrange
    have hcast : ((d % (cfg.maxNumber - cfg.minNumber + 1).toNat : Nat) : Int) <
        (((cfg.maxNumber - cfg.minNumber + 1).toNat : Nat) : Int) := by
      exact_mod_cast hlt
    have hnonneg : (0 : Int) ≤ cfg.maxNumber - cfg.minNumber + 1 := by
      by_contra hneg
      push_neg at hneg
      have h0 : (cfg.maxNumber - cfg.minNumber + 1).toNat = 0 := by omega
      omega
    rw [Int.toNat_of_nonneg hnonneg] at hcast
    omega

theorem collectUnique_nodup (cfg : GameConfig) (total : Nat) :
    ∀ (draws : List Nat) (acc : List Int), acc.Nodup →
      (collectUnique cfg total draws acc).Nodup := by
  intro draws
  induction draws with
  | nil => intro acc h; simpa [collectUnique] using h
  | cons d rest ih =>
    intro acc h
    rw [collectUnique]
    by_cases hlen : total ≤ acc.length
    · rw [if_pos hlen]; exact h
    · rw [if_neg hlen]
      by_cases hmem : drawValue cfg d ∈ acc
      · rw [if_pos hmem]; exact ih acc h
      · rw [if_neg hmem]
        exact ih _ (by simp [List.nodup_append, h, hmem])

theorem collectUnique_mem (cfg : GameConfig) (total : Nat)
    (hrange : 0 < (cfg.maxNumber - cfg.minNumber + 1).toNat) :
    ∀ (draws : List Nat) (acc : List Int), ∀ x ∈ collectUnique cfg total draws acc,
      x ∈ acc ∨ (cfg.minNumber ≤ x ∧ x ≤ cfg.maxNumber) := by
  intro draws
  induction draws with
  | nil => intro acc x hx; exact Or.inl (by simpa [collectUnique] using hx)
  | cons d rest ih =>
    intro acc x hx
    rw [collectUnique] at hx
    by_cases hlen : total ≤ acc.length
    · rw [if_pos hlen] at hx; exact Or.inl hx
    · rw [if_neg hlen] at hx
      by_cases hmem : drawValue cfg d ∈ acc
      · rw [if_pos hmem] at hx; exact ih acc x hx
      · rw [if_neg hmem] at hx
        rcases ih _ x hx with h | h
        · rcases List.mem_append.mp h with h | h
          · exact Or.inl h
          · simp at h
            subst h
            exact Or.inr (drawValue_range cfg d hrange)
        · exact Or.inr h

theorem cons_set_perm :
    ∀ (t : List Int) (m : Nat) (x y : Int), t[m]? = some y →
      (y :: t.set m x).Perm (x :: t) := by
  intro t
  induction t with
  | nil => intro m x y h; simp at h
  | cons b t ih =>
    intro m x y h
    cases m with
    | zero =>
      simp at h
      subst h
      simpa using List.Perm.swap x b t
    | succ k =>
      simp at h
      have hpm := ih k x y h
      have h1 : (y :: (b :: t).set (k + 1) x) = y :: b :: t.set k x := by simp
      rw [h1]
      exact (List.Perm.swap b y _).trans ((hpm.cons b).trans (List.Perm.swap x b t))

theorem set_set_perm :
    ∀ (l : List Int) (i j : Nat) (x y : Int), l[i]? = some x → l[j]? = some y →
      ((l.set i y).set j x).Perm l := by
  intro l
  induction l with
  | nil => intro i j x y hi _; simp at hi
  | cons a t ih =>
    intro i j x y hi hj
    cases i with
    | zero =>
      simp at hi
      subst hi
      cases j with
      | zero =>
        simp at hj
        subst hj
        simp
      | succ k =>
        simp at hj
        have h1 : ((a :: t).set 0 y).set (k + 1) a = y :: t.set k a := by simp
        rw [h1]
        exact cons_set_perm t k a y hj
    | succ k =>
      cases j with
      | zero =>
        simp at hi hj
        subst hj
        have h1 : ((a :: t).set (k + 1) a).set 0 x = x :: t.set k a := by simp
        rw [h1]
        exact cons_set_perm t k a x hi
      | succ m =>
        simp at hi hj
        have h1 : ((a :: t).set (k + 1) y).set (m + 1) x = a :: (t.set k y).set m x := by simp
        rw [h1]
        exact (ih k m x y hi hj).cons a

theorem listSwap_perm (l : List Int) (i j : Nat) : (listSwap l i j).Perm l := by
  cases hi : l[i]? with
  | none => simp [listSwap, hi]
  | some x =>
    cases hj : l[j]? with
    | none => simp [listSwap, hi, hj]
    | some y =>
      simp only [listSwap, hi, hj]
      exact set_set_perm l i j x y hi hj

theorem fisherYatesAux_perm : ∀ (k : Nat) (swaps : List Nat) (l : List Int),
    (fisherYatesAux k swaps l).Perm l := by
  intro k
  induction k with
  | zero => intro swaps l; simp [fisherYatesAux]
  | succ k ih =>
    intro swaps l
    cases swaps with
    | nil => simp [fisherYatesAux]
    | cons j js =>
      exact (ih js _).trans (listSwap_perm l (k + 1) (j % (k + 2)))

theorem fisherYates_perm (l : List Int) (swaps : List Nat) : (fisherYates l swaps).Perm l :=
  fisherYatesAux_perm _ swaps l

theorem forall₂_perm_map {α : Type} (xs : List α) (f g : α → List Int)
    (h : ∀ x ∈ xs, (f x).Perm (g x)) :
    List.Forall₂ (fun a b => a.Perm b) (xs.map f) (xs.map g) := by
  induction xs with
  | nil => simp
  | cons a t ih =>
    simp only [List.map_cons]
    exact List.Forall₂.cons (h a (by simp)) (ih fun x hx => h x (List.mem_cons_of_mem _ hx))

theorem chunks_flatten (l : List Int) (k n : Nat) :
    ((List.range n).map (fun i => (l.drop (i * k)).take k)).flatten = l.take (n * k) := by
  induction n with
  | zero => simp
  | succ n ih =>
    rw [List.range_succ, List.map_append, List.flatten_append, ih]
    simp only [List.map_cons, List.map_nil, List.flatten_cons, List.flatten_nil,
      List.append_nil]
    rw [Nat.succ_mul, List.take_add]

theorem sortedChunks_flatten_perm (l : List Int) (k n : Nat) :
    (((List.range n).map (fun i => sortInts ((l.drop (i * k)).take k))).flatten).Perm
      (l.take (n * k)) := by
  have h := forall₂_perm_map (List.range n)
    (fun i => sortInts ((l.drop (i * k)).take k))
    (fun i => (l.drop (i * k)).take k)
    (fun i _ => sortInts_perm _)
  exact (List.Perm.flatten_congr h).trans (by rw [chunks_flatten])

/-- Everything a successful run of the generator guarantees with no
assumption on the random streams. -/
theorem generateAllPlayerNumbers_ok {cfg : GameConfig} {pc : Nat} {draws swaps : List Nat}
    {hands : List (List Int)}
    (h : generateAllPlayerNumbers cfg pc draws swaps = .ok hands) :
    hands.length = pc ∧
    hands.flatten.Nodup ∧
    (∀ hd ∈ hands, hd.Sorted (· ≤ ·)) ∧
    (0 < (cfg.maxNumber - cfg.minNumber + 1).toNat →
      ∀ x ∈ hands.flatten, cfg.minNumber ≤ x ∧ x ≤ cfg.maxNumber) := by
  unfold generateAllPlayerNumbers at h
  by_cases hcap : cfg.maxNumber - cfg.minNumber + 1 < (pc : Int) * cfg.numbersPerPlayer
  · rw [if_pos hcap] at h
    cases h
  · rw [if_neg hcap] at h
    cases h
    have hperm := sortedChunks_flatten_perm
      (fisherYates (collectUnique cfg ((pc : Int) * cfg.numbersPerPlayer).toNat draws []) swaps)
      cfg.numbersPerPlayer.toNat pc
    have hshufNodup : (fisherYates
        (collectUnique cfg ((pc : Int) * cfg.numbersPerPlayer).toNat draws []) swaps).Nodup :=
      ((fisherYates_perm _ swaps).nodup_iff).mpr
        (collectUnique_nodup cfg _ draws [] (by simp))
    refine ⟨by simp, ?_, ?_, ?_⟩
    · exact hperm.nodup_iff.mpr ((List.take_sublist _ _).nodup hshufNodup)
    · intro hd hhd
      simp only [List.mem_map] at hhd
      obtain ⟨i, _, rfl⟩ := hhd
      exact sortInts_sorted _
    · intro hrange x hx
      have hxs := (List.take_sublist _ _).mem (hperm.mem_iff.mp hx)
      have hxc := (fisherYates_perm _ swaps).mem_iff.mp hxs
      rcases collectUnique_mem cfg _ hrange draws [] x hxc with habs | hok
      · simp at habs
      · exact hok

/-! ## C2: the number generator -/

/-- C2.  With the fixed range [1, 100]: whenever
playerCount * numbersPerPlayer does not exceed 100 (and the sampling loop
terminates, i.e. the draw stream supplies the needed count of distinct
values), generateAllPlayerNumbers returns exactly playerCount hands, each
of length numbersPerPlayer and sorted ascending, pairwise disjoint, whose
union is a subset of [1, 100] with exactly playerCount * numbersPerPlayer
distinct elements; and whenever playerCount * numbersPerPlayer exceeds 100
it throws the capacity error and produces no hands. -/
theorem generateAllPlayerNumbers_spec (ml npp : Int) (pc : Nat) (draws swaps : List Nat)
    (hnpp : 0 ≤ npp) :
    ((pc : Int) * npp ≤ 100 →
      (collectUnique ⟨ml, npp, 1, 100⟩ ((pc : Int) * npp).toNat draws []).length
          = ((pc : Int) * npp).toNat →
      ∃ hands, generateAllPlayerNumbers ⟨ml, npp, 1, 100⟩ pc draws swaps = .ok hands ∧
        hands.length = pc ∧
        (∀ hd ∈ hands, hd.length = npp.toNat ∧ hd.Sorted (· ≤ ·)) ∧
        hands.flatten.Nodup ∧
        List.Pairwise List.Disjoint hands ∧
        (∀ x ∈ hands.flatten, 1 ≤ x ∧ x ≤ 100) ∧
        hands.flatten.length = pc * npp.toNat) ∧
    (100 < (pc : Int) * npp →
      generateAllPlayerNumbers ⟨ml, npp, 1, 100⟩ pc draws swaps =
        .error "Not enough unique numbers in range.") := by
  have htotal : ((pc : Int) * npp).toNat = pc * npp.toNat := by
    obtain ⟨m, rfl⟩ := Int.eq_ofNat_of_zero_le hnpp
    rfl
  constructor
  · intro hcap hlen
    have hcond : ¬((100 : Int) - 1 + 1 < (pc : Int) * npp) := by omega
    have hgen : generateAllPlayerNumbers ⟨ml, npp, 1, 100⟩ pc draws swaps =
        .ok ((List.range pc).map (fun playerIndex =>
          sortInts (((fisherYates
              (collectUnique ⟨ml, npp, 1, 100⟩ ((pc : Int) * npp).toNat draws [])
              swaps).drop (playerIndex * npp.toNat)).take npp.toNat))) := by
      unfold generateAllPlayerNumbers
      dsimp only
      rw [if_neg hcond]
    obtain ⟨hhl, hnd, hsorted, hrange⟩ := generateAllPlayerNumbers_ok hgen
    refine ⟨_, hgen, hhl, ?_, hnd, ?_, fun x hx => hrange (by norm_num) x hx, ?_⟩
    · have hshuflen : (fisherYates
          (collectUnique ⟨ml, npp, 1, 100⟩ ((pc : Int) * npp).toNat draws [])
          swaps).length = pc * npp.toNat := by
        rw [(fisherYates_perm _ swaps).length_eq, hlen, htotal]
      intro hd hhd
      simp only [List.mem_map, List.mem_range] at hhd
      obtain ⟨i, hi, rfl⟩ := hhd
      refine ⟨?_, hsorted _ (by
        simp only [List.mem_map, List.mem_range]
        exact ⟨i, hi, rfl⟩)⟩
      have : ((fisherYates
          (collectUnique ⟨ml, npp, 1, 100⟩ ((pc : Int) * npp).toNat draws [])
          swaps).drop (i * npp.toNat)).length = pc * npp.toNat - i * npp.toNat := by
        rw [List.length_drop, hshuflen]
      rw [(sortInts_perm _).length_eq, List.length_take, this]
      have hle : i * npp.toNat + npp.toNat ≤ pc * npp.toNat := by
        have h2 : (i + 1) * npp.toNat ≤ pc * npp.toNat := Nat.mul_le_mul_right _ hi
        rwa [Nat.succ_mul] at h2
      omega
    · exact (List.nodup_flatten.mp hnd).2
    · have hshuflen : (fisherYates
          (collectUnique ⟨ml, npp, 1, 100⟩ ((pc : Int) * npp).toNat draws [])
          swaps).length = pc * npp.toNat := by
        rw [(fisherYates_perm _ swaps).length_eq, hlen, htotal]
      have hperm := sortedChunks_flatten_perm
        (fisherYates (collectUnique ⟨ml, npp, 1, 100⟩ ((pc : Int) * npp).toNat draws []) swaps)
        npp.toNat pc
      rw [hperm.length_eq, List.length_take, hshuflen]
      omega
  · intro hcap
    unfold generateAllPlayerNumbers
    dsimp only
    rw [if_pos (by omega)]

/-- Witness for C2: both branches applied at concrete inputs. -/
theorem generateAllPlayerNumbers_spec_witness :
    (∃ hands, generateAllPlayerNumbers ⟨3, 2, 1, 100⟩ 2 [0, 1, 2, 3] [2, 1, 0] = .ok hands ∧
        hands.length = 2 ∧
        (∀ hd ∈ hands, hd.length = (2 : Int).toNat ∧ hd.Sorted (· ≤ ·)) ∧
        hands.flatten.Nodup ∧
        List.Pairwise List.Disjoint hands ∧
        (∀ x ∈ hands.flatten, 1 ≤ x ∧ x ≤ 100) ∧
        hands.flatten.length = 2 * (2 : Int).toNat) ∧
    generateAllPlayerNumbers ⟨3, 2, 1, 100⟩ 51 [] [] =
      .error "Not enough unique numbers in range." :=
  ⟨(generateAllPlayerNumbers_spec 3 2 2 [0, 1, 2, 3] [2, 1, 0] (by decide)).1
      (by decide) (by decide),
   (generateAllPlayerNumbers_spec 3 2 51 [] [] (by decide)).2 (by decide)⟩

/-! ## C8: idempotent rejoin -/

/-- C8.  A join-room request from a connection identity already seated is
idempotent: the room is returned entirely unchanged (players, hostId and
every other field), and the handler only re-broadcasts the current room
snapshot, adding the game-state projection for the requester when the room
is not in the lobby. -/
theorem joinRoom_rejoin_spec (r : GameRoom) (sid name : String) (isHost : Bool)
    (h : ∃ p ∈ r.players, p.id = sid) :
    joinRoom r sid name isHost =
      (r, .broadcast (.roomUpdated r) ::
          (if r.state ≠ .lobby then [.unicast (.gameStateUpdated (getGameState r))] else [])) := by
  obtain ⟨p, hp, hpid⟩ := h
  have hfind : r.players.find? (fun q => q.id == sid) ≠ none := by
    intro hnone
    rw [List.find?_eq_none] at hnone
    exact hnone p hp (by simpa using hpid)
  have hcond : ¬(r.state = .playing ∧ r.players.find? (fun q => q.id == sid) = none) := by
    rintro ⟨-, hnone⟩
    exact hfind hnone
  unfold joinRoom
  rw [if_neg hcond]
  cases hf : r.players.find? (fun q => q.id == sid) with
  | none => exact absurd hf hfind
  | some q => rfl

/-- Witness for C8: a rejoin into a playing room, even with the host-intent
flag set, changes nothing and re-emits room and game state. -/
theorem joinRoom_rejoin_witness :
    joinRoom c8room "b" "x" true =
      (c8room, [Emit.broadcast (Msg.roomUpdated c8room),
                Emit.unicast (Msg.gameStateUpdated (getGameState c8room))]) := by
  rw [joinRoom_rejoin_spec c8room "b" "x" true ⟨⟨"b", "B", [2]⟩, by decide, rfl⟩]
  rfl

/-! ## C10: joining as a newcomer -/

/-- C10.  A join-room request from an identity not seated in the room is
refused, with a unicast error and the room untouched, exactly when the room
is playing; in every other state (lobby, game-over, victory) the identity
is seated as a new player with an empty hand at the end of the player list,
and no error is emitted. -/
theorem joinRoom_new_spec (r : GameRoom) (sid name : String) (isHost : Bool)
    (h : ∀ p ∈ r.players, p.id ≠ sid) :
    (r.state = .playing →
       joinRoom r sid name isHost = (r, [.unicast (.errMsg "Cannot join game in progress")])) ∧
    (r.state ≠ .playing →
       (joinRoom r sid name isHost).1.players
         = r.players ++ [⟨sid, if name = "" then "Anonymous" else name, []⟩] ∧
       (joinRoom r sid name isHost).1.state = r.state ∧
       (joinRoom r sid name isHost).1.timeline = r.timeline ∧
       (joinRoom r sid name isHost).1.lives = r.lives ∧
       (∀ e ∈ (joinRoom r sid name isHost).2, isBroadcast e = true ∨
          e = .unicast (.gameStateUpdated (getGameState (joinRoom r sid name isHost).1)))) := by
  have hfind : r.players.find? (fun q => q.id == sid) = none := by
    rw [List.find?_eq_none]
    intro p hp
    simpa using h p hp
  constructor
  · intro hst
    unfold joinRoom
    rw [if_pos ⟨hst, hfind⟩]
  · intro hst
    unfold joinRoom
    rw [if_neg (by rintro ⟨hp, -⟩; exact hst hp), hfind]
    dsimp only
    by_cases hh : isHost ∨ r.hostId = ""
    · rw [if_pos hh]
      refine ⟨rfl, rfl, rfl, rfl, ?_⟩
      intro e he
      rcases List.mem_cons.mp he with rfl | he
      · exact Or.inl rfl
      · rw [List.mem_ite_nil_right] at he
        have h2 := he.2
        simp only [List.mem_singleton] at h2
        exact Or.inr h2
    · rw [if_neg hh]
      refine ⟨rfl, rfl, rfl, rfl, ?_⟩
      intro e he
      rcases List.mem_cons.mp he with rfl | he
      · exact Or.inl rfl
      · rw [List.mem_ite_nil_right] at he
        have h2 := he.2
        simp only [List.mem_singleton] at h2
        exact Or.inr h2

/-- Witness for C10: refusal into a playing room, and seating into a
game-over room. -/
theorem joinRoom_new_witness :
    joinRoom c10proom "c" "Cee" false =
      (c10proom, [.unicast (.errMsg "Cannot join game in progress")]) ∧
    (joinRoom c10room "c" "Cee" false).1.players
      = c10room.players ++ [⟨"c", "Cee", []⟩] :=
  ⟨(joinRoom_new_spec c10proom "c" "Cee" false (by decide)).1 (by decide),
   ((joinRoom_new_spec c10room "c" "Cee" false (by decide)).2 (by decide)).1⟩

/-! ## C9: room creation validation -/

/-- C9: evaluation of the create route at an out-of-bounds configuration.
With maxLives = 0 the handler sends the 400 validation error but, lacking
an early return, still calls RoomService.createRoom: the store gains the
invalid room.  The claim says no room is created; the code contradicts the
validation it just performed, so this is a code bug. -/
theorem createRoom_validation_bug :
    createRoomHandler [] "ROOM" 0 6 =
      ([createRoom "ROOM" 0 6],
       [(400, "Max lives must be between 1 and 10"), (200, "room")]) ∧
    createRoom "ROOM" 0 6 ∈ (createRoomHandler [] "ROOM" 0 6).1 ∧
    (createRoom "ROOM" 0 6).maxLives = 0 := by decide

/-! ## C7: leave and disconnect -/

/-- C7 (amended).  For an explicit leave-room of a seated player: the
player is removed from every surviving room; when the departing identity
was the host and the room was in the lobby, the room is destroyed and the
subscribers receive the room-deleted broadcast; otherwise the room survives
unless it became empty (then it is destroyed), and when the departing
identity was the host the first remaining player in join order becomes the
new host.  (An involuntary disconnect takes none of these actions: see the
counterexample.) -/
theorem handlePlayerLeave_spec (r : GameRoom) (sid : String)
    (_hseat : sid ∈ r.players.map Player.id) :
    (∀ r₁, (handlePlayerLeave r sid).1 = some r₁ → sid ∉ r₁.players.map Player.id) ∧
    (r.hostId = sid ∧ r.state = .lobby →
       (handlePlayerLeave r sid).1 = none ∧
       (handlePlayerLeave r sid).2 = [.broadcast (.roomDeleted "Host left during lobby")]) ∧
    (¬(r.hostId = sid ∧ r.state = .lobby) →
       (r.players.filter (fun p => p.id != sid) = [] → (handlePlayerLeave r sid).1 = none) ∧
       (∀ p₀ rest, r.players.filter (fun p => p.id != sid) = p₀ :: rest →
          ∃ r₁, (handlePlayerLeave r sid).1 = some r₁ ∧
            r₁.players = p₀ :: rest ∧
            r₁.hostId = (if r.hostId = sid then p₀.id else r.hostId) ∧
            r₁.state = r.state ∧ r₁.timeline = r.timeline ∧ r₁.lives = r.lives)) := by
  unfold handlePlayerLeave
  by_cases hlob : r.hostId = sid ∧ r.state = RoomState.lobby
  · rw [if_pos hlob]
    refine ⟨?_, fun _ => ⟨rfl, rfl⟩, fun hn => absurd hlob hn⟩
    intro r₁ h
    cases h
  · rw [if_neg hlob]
    cases hflt : r.players.filter (fun p => p.id != sid) with
    | nil =>
      refine ⟨?_, fun h => absurd h hlob, fun _ => ⟨fun _ => rfl, ?_⟩⟩
      · intro r₁ h
        cases h
      · intro p₀ rest habs
        cases habs
    | cons p₀ rest =>
      have hnotin : ∀ q ∈ p₀ :: rest, q.id ≠ sid := by
        intro q hq
        have hmf : q ∈ r.players.filter (fun p => p.id != sid) := by rw [hflt]; exact hq
        have := List.of_mem_filter hmf
        simpa using this
      refine ⟨?_, fun h => absurd h hlob, fun _ => ⟨?_, ?_⟩⟩
      · intro r₁ h
        dsimp only at h
        by_cases hihost : r.hostId = sid
        · rw [if_pos hihost] at h
          cases h
          intro hmem
          simp only [List.map_cons, List.mem_cons, List.mem_map] at hmem
          rcases hmem with hmem | ⟨q, hqm, hqs⟩
          · exact hnotin p₀ (by simp) hmem.symm
          · exact hnotin q (List.mem_cons_of_mem _ hqm) hqs
        · rw [if_neg hihost] at h
          cases h
          intro hmem
          simp only [List.map_cons, List.mem_cons, List.mem_map] at hmem
          rcases hmem with hmem | ⟨q, hqm, hqs⟩
          · exact hnotin p₀ (by simp) hmem.symm
          · exact hnotin q (List.mem_cons_of_mem _ hqm) hqs
      · intro habs
        cases habs
      · intro q₀ qrest hq
        cases hq
        dsimp only
        by_cases hihost : r.hostId = sid
        · rw [if_pos hihost]
          exact ⟨_, rfl, rfl, by rw [if_pos hihost], rfl, rfl, rfl⟩
        · rw [if_neg hihost]
          exact ⟨_, rfl, rfl, by rw [if_neg hihost], rfl, rfl, rfl⟩

/-- C7 counterexample: an involuntary disconnect of the seated player p2.
The disconnect handler has no room id, skips the lookup, removes nobody and
emits nothing, so the claim that a disconnect removes the player fails. -/
theorem handleDisconnect_counterexample :
    handleDisconnect c7droom "p2" = (some c7droom, []) ∧
    "p2" ∈ c7droom.players.map Player.id := by decide

/-- Witness for C7: the host leaving a lobby room destroys it, and the host
leaving a playing room promotes the first survivor. -/
theorem handlePlayerLeave_spec_witness :
    ((handlePlayerLeave c7droom "p1").1 = none ∧
     (handlePlayerLeave c7droom "p1").2
       = [.broadcast (.roomDeleted "Host left during lobby")]) ∧
    (∃ r₁, (handlePlayerLeave c7proom "p1").1 = some r₁ ∧ r₁.hostId = "p2") := by
  constructor
  · exact (handlePlayerLeave_spec c7droom "p1" (by decide)).2.1 ⟨rfl, rfl⟩
  · obtain ⟨r₁, h1, h2, h3, -⟩ :=
      ((handlePlayerLeave_spec c7proom "p1" (by decide)).2.2 (by decide)).2
        ⟨"p2", "B", [2]⟩ [] (by decide)
    refine ⟨r₁, h1, ?_⟩
    rw [h3]
    decide

/-! ## C6: starting the game -/

/-- Inversion of a successful start-game request. -/
theorem startResult_ok_inv {r : GameRoom} {sid : String} {draws swaps : List Nat}
    {r₁ : GameRoom} {hands : List (List Int)}
    (h : startResult r sid draws swaps = .ok (r₁, hands)) :
    r.hostId = sid ∧ 2 ≤ r.players.length ∧
    (r.players.length : Int) * r.numbersPerPlayer ≤ 100 ∧
    generateAllPlayerNumbers ⟨r.maxLives, r.numbersPerPlayer, 1, 100⟩
      r.players.length draws swaps = .ok hands ∧
    r₁ = { r with players := assignHands r.players hands,
                  timeline := [], lives := r.maxLives, state := .playing } := by
  unfold startResult at h
  by_cases h1 : r.hostId ≠ sid
  · rw [if_pos h1] at h
    cases h
  · rw [if_neg h1] at h
    by_cases h2 : r.players.length < 2
    · rw [if_pos h2] at h
      cases h
    · rw [if_neg h2] at h
      by_cases h3 : (100 : Int) < (r.players.length : Int) * r.numbersPerPlayer
      · rw [if_pos h3] at h
        cases h
      · rw [if_neg h3] at h
        unfold initGame at h
        cases hgen : generateAllPlayerNumbers ⟨r.maxLives, r.numbersPerPlayer, 1, 100⟩
            r.players.length draws swaps with
        | error e => rw [hgen] at h; cases h
        | ok hs =>
          rw [hgen] at h
          simp only [Except.ok.injEq, Prod.mk.injEq] at h
          obtain ⟨hr, hh⟩ := h
          subst hh
          exact ⟨not_not.mp h1, by omega, by omega, rfl, hr.symm⟩

/-- C6 (amended).  A start-game request succeeds (numbers dealt through the
generator, timeline cleared, lives reset to maxLives, state set to playing,
both broadcasts emitted) whenever the requester is the host, at least two
players are seated and players.length * numbersPerPlayer is at most 100 --
regardless of the lifecycle state, which the handler never checks; when the
host check, the player-count check or the capacity check fails, a unicast
error goes to the requester only and the room is entirely unchanged. -/
theorem startGame_spec (r : GameRoom) (sid : String) (draws swaps : List Nat)
    (eid : String) (ts : Int) :
    ((r.hostId ≠ sid ∨ r.players.length < 2 ∨
        (100 : Int) < (r.players.length : Int) * r.numbersPerPlayer) →
       (startGame r sid draws swaps eid ts).1 = r ∧
       ∃ m, (startGame r sid draws swaps eid ts).2 = [.unicast (.errMsg m)]) ∧
    (∀ r₁ hands, startResult r sid draws swaps = .ok (r₁, hands) →
       r.hostId = sid ∧ 2 ≤ r.players.length ∧
       (r.players.length : Int) * r.numbersPerPlayer ≤ 100 ∧
       generateAllPlayerNumbers ⟨r.maxLives, r.numbersPerPlayer, 1, 100⟩
         r.players.length draws swaps = .ok hands ∧
       r₁.players = assignHands r.players hands ∧
       r₁.timeline = [] ∧ r₁.lives = r.maxLives ∧ r₁.state = .playing ∧
       (startGame r sid draws swaps eid ts).1 = addGameEvent r₁ "game-started" eid ts ∧
       (startGame r sid draws swaps eid ts).2 =
         [.broadcast (.roomUpdated (addGameEvent r₁ "game-started" eid ts)),
          .broadcast (.gameStateUpdated (getGameState (addGameEvent r₁ "game-started" eid ts)))]) := by
  constructor
  · intro hpre
    have herr : ∃ m, startResult r sid draws swaps = Except.error m := by
      by_cases h1 : r.hostId ≠ sid
      · exact ⟨_, by unfold startResult; rw [if_pos h1]⟩
      · by_cases h2 : r.players.length < 2
        · exact ⟨_, by unfold startResult; rw [if_neg h1, if_pos h2]⟩
        · by_cases h3 : (100 : Int) < (r.players.length : Int) * r.numbersPerPlayer
          · exact ⟨_, by unfold startResult; rw [if_neg h1, if_neg h2, if_pos h3]⟩
          · exfalso
            rcases hpre with h | h | h
            · exact h1 h
            · exact h2 h
            · exact h3 h
    obtain ⟨m, hm⟩ := herr
    unfold startGame
    rw [hm]
    exact ⟨rfl, m, rfl⟩
  · intro r₁ hands hok
    obtain ⟨hhost, hcount, hcap, hgen, hr₁⟩ := startResult_ok_inv hok
    refine ⟨hhost, hcount, hcap, hgen, by rw [hr₁], by rw [hr₁], by rw [hr₁], by rw [hr₁],
      ?_, ?_⟩
    · unfold startGame
      rw [hok]
    · unfold startGame
      rw [hok]

/-- C6 counterexample: the host issues start-game in a room that is already
playing.  All three checks pass, the game restarts (fresh hands, lives back
to maxLives, timeline cleared) and only broadcasts are emitted, refuting
the claim that a start outside the lobby is refused with the room
unchanged. -/
theorem startGame_state_counterexample :
    c6room.state = .playing ∧
    (startGame c6room "h" [2, 6] [0] "e" 7).1.state = .playing ∧
    (startGame c6room "h" [2, 6] [0] "e" 7).1.players.map Player.numbers = [[7], [3]] ∧
    (startGame c6room "h" [2, 6] [0] "e" 7).1 ≠ c6room ∧
    ((startGame c6room "h" [2, 6] [0] "e" 7).2.all isBroadcast) = true := by decide

/-- Witness for C6: the failure branch at a concrete one-player room, and
the success branch at the concrete playing room. -/
theorem startGame_spec_witness :
    ((startGame c10room "c" [] [] "e" 0).1 = c10room ∧
      ∃ m, (startGame c10room "c" [] [] "e" 0).2 = [.unicast (.errMsg m)]) ∧
    (startGame c6room "h" [2, 6] [0] "e" 7).1.timeline = [] :=
  ⟨(startGame_spec c10room "c" [] [] "e" 0).1 (Or.inl (by decide)),
   by
    obtain ⟨-, -, -, -, -, ht, -, -, hroom, -⟩ :=
      (startGame_spec c6room "h" [2, 6] [0] "e" 7).2
        ({ c6room with players := assignHands c6room.players [[7], [3]],
                       timeline := [], lives := c6room.maxLives, state := .playing })
        [[7], [3]] (by rfl)
    rw [hroom]
    rfl⟩

/-! ## Field lemmas for the handlers -/

theorem addGameEvent_state (r : GameRoom) (etype eid : String) (ts : Int) :
    (addGameEvent r etype eid ts).state = r.state := rfl

theorem addGameEvent_timeline (r : GameRoom) (etype eid : String) (ts : Int) :
    (addGameEvent r etype eid ts).timeline = r.timeline := rfl

theorem addGameEvent_players (r : GameRoom) (etype eid : String) (ts : Int) :
    (addGameEvent r etype eid ts).players = r.players := rfl

theorem addGameEvent_lives (r : GameRoom) (etype eid : String) (ts : Int) :
    (addGameEvent r etype eid ts).lives = r.lives := rfl

theorem addGameEvent_maxLives (r : GameRoom) (etype eid : String) (ts : Int) :
    (addGameEvent r etype eid ts).maxLives = r.maxLives := rfl

theorem heldNumbers_addGameEvent (r : GameRoom) (etype eid : String) (ts : Int) :
    heldNumbers (addGameEvent r etype eid ts) = heldNumbers r := rfl

theorem joinRoom_fields (r : GameRoom) (sid name : String) (hostFlag : Bool) :
    (joinRoom r sid name hostFlag).1.state = r.state ∧
    (joinRoom r sid name hostFlag).1.timeline = r.timeline ∧
    (joinRoom r sid name hostFlag).1.lives = r.lives ∧
    (joinRoom r sid name hostFlag).1.maxLives = r.maxLives ∧
    heldNumbers (joinRoom r sid name hostFlag).1 = heldNumbers r := by
  unfold joinRoom
  by_cases hc : r.state = RoomState.playing ∧ r.players.find? (fun q => q.id == sid) = none
  · rw [if_pos hc]
    exact ⟨rfl, rfl, rfl, rfl, rfl⟩
  · rw [if_neg hc]
    cases hf : r.players.find? (fun q => q.id == sid) with
    | some p => exact ⟨rfl, rfl, rfl, rfl, rfl⟩
    | none =>
      dsimp only
      by_cases hh : hostFlag ∨ r.hostId = ""
      · rw [if_pos hh]
        exact ⟨rfl, rfl, rfl, rfl, by simp [heldNumbers]⟩
      · rw [if_neg hh]
        exact ⟨rfl, rfl, rfl, rfl, by simp [heldNumbers]⟩

theorem playNumber_room (r : GameRoom) (sid : String) (n : Int) (e₁ e₂ : String) (ts : Int) :
    (playNumber r sid n e₁ e₂ ts).1.state = (makeMove r sid n).1.state ∧
    (playNumber r sid n e₁ e₂ ts).1.timeline = (makeMove r sid n).1.timeline ∧
    (playNumber r sid n e₁ e₂ ts).1.players = (makeMove r sid n).1.players ∧
    (playNumber r sid n e₁ e₂ ts).1.lives = (makeMove r sid n).1.lives ∧
    (playNumber r sid n e₁ e₂ ts).1.maxLives = (makeMove r sid n).1.maxLives := by
  unfold playNumber
  dsimp only
  split
  · split
    · exact ⟨rfl, rfl, rfl, rfl, rfl⟩
    · exact ⟨rfl, rfl, rfl, rfl, rfl⟩
  · split
    · exact ⟨rfl, rfl, rfl, rfl, rfl⟩
    · exact ⟨rfl, rfl, rfl, rfl, rfl⟩

theorem makeMove_fail_room {r : GameRoom} {pid : String} {n : Int} {e : MoveError}
    (hv : validateMove r pid n = some e) :
    (makeMove r pid n).1 =
      { r with
        lives := r.lives - 1,
        state := (if r.lives - 1 ≤ 0 then RoomState.gameOver else r.state) } := by
  unfold makeMove
  rw [hv]
  dsimp only
  by_cases hl : r.lives - 1 ≤ 0
  · simp only [if_pos hl]
  · simp only [if_neg hl]

theorem makeMove_ok_fields {r : GameRoom} {pid : String} {n : Int}
    (hv : validateMove r pid n = none) :
    (makeMove r pid n).1.timeline = r.timeline ++ [n] ∧
    (makeMove r pid n).1.players = removeNumberFromFirst r.players pid n ∧
    (makeMove r pid n).1.lives = r.lives ∧
    (makeMove r pid n).1.maxLives = r.maxLives ∧
    (makeMove r pid n).1.state =
      (if (removeNumberFromFirst r.players pid n).all (fun p => p.numbers.isEmpty) = true
       then RoomState.victory else r.state) := by
  unfold makeMove
  rw [hv]
  dsimp only
  by_cases hall :
      (removeNumberFromFirst r.players pid n).all (fun p => p.numbers.isEmpty) = true
  · simp [hall]
  · simp [hall]

theorem handlePlayerLeave_some {r : GameRoom} {sid : String} {r₁ : GameRoom}
    (h : (handlePlayerLeave r sid).1 = some r₁) :
    r₁.players = r.players.filter (fun p => p.id != sid) ∧
    r₁.state = r.state ∧ r₁.timeline = r.timeline ∧
    r₁.lives = r.lives ∧ r₁.maxLives = r.maxLives := by
  unfold handlePlayerLeave at h
  by_cases hlob : r.hostId = sid ∧ r.state = RoomState.lobby
  · rw [if_pos hlob] at h
    cases h
  · rw [if_neg hlob] at h
    cases hflt : r.players.filter (fun p => p.id != sid) with
    | nil =>
      rw [hflt] at h
      cases h
    | cons p₀ rest =>
      rw [hflt] at h
      dsimp only at h
      by_cases hih : r.hostId = sid
      · rw [if_pos hih] at h
        cases h
        exact ⟨rfl, rfl, rfl, rfl, rfl⟩
      · rw [if_neg hih] at h
        cases h
        exact ⟨rfl, rfl, rfl, rfl, rfl⟩

theorem resetGameHandler_cases (r : GameRoom) (sid eid : String) (ts : Int) :
    ((resetGameHandler r sid eid ts).1 = r ∨
      (resetGameHandler r sid eid ts).1.state = RoomState.lobby) ∧
    (resetGameHandler r sid eid ts).1.maxLives = r.maxLives := by
  unfold resetGameHandler
  by_cases hh : r.hostId ≠ sid
  · rw [if_pos hh]
    exact ⟨Or.inl rfl, rfl⟩
  · rw [if_neg hh]
    exact ⟨Or.inr rfl, rfl⟩

/-! ## Hand bookkeeping lemmas -/

theorem assignHands_flatMap (ps : List Player) (hs : List (List Int))
    (h : ps.length = hs.length) :
    (assignHands ps hs).flatMap Player.numbers = hs.flatten := by
  induction ps generalizing hs with
  | nil =>
    cases hs with
    | nil => simp [assignHands]
    | cons a t => simp at h
  | cons p pt ihp =>
    cases hs with
    | nil => simp at h
    | cons a t =>
      unfold assignHands
      rw [List.zipWith_cons_cons, List.flatMap_cons, List.flatten_cons]
      have := ihp t (by simpa using h)
      unfold assignHands at this
      rw [this]

theorem removeNumber_held {ps : List Player} {pid : String} {p : Player} {n : Int}
    (hf : ps.find? (fun q => q.id == pid) = some p)
    (hnd : (ps.flatMap Player.numbers).Nodup) (hm : n ∈ p.numbers) :
    ((removeNumberFromFirst ps pid n).flatMap Player.numbers).Sublist
        (ps.flatMap Player.numbers) ∧
    n ∉ (removeNumberFromFirst ps pid n).flatMap Player.numbers ∧
    (∀ x ∈ ps.flatMap Player.numbers, x ≠ n →
        x ∈ (removeNumberFromFirst ps pid n).flatMap Player.numbers) := by
  obtain ⟨A, B, hps, hA, hrm⟩ := removeNumberFromFirst_decomp hf n
  have hheld : ps.flatMap Player.numbers
      = A.flatMap Player.numbers ++ (p.numbers ++ B.flatMap Player.numbers) := by
    rw [hps, List.flatMap_append, List.flatMap_cons]
  have hheld₁ : (removeNumberFromFirst ps pid n).flatMap Player.numbers
      = A.flatMap Player.numbers
        ++ (p.numbers.filter (fun m => m != n) ++ B.flatMap Player.numbers) := by
    rw [hrm, List.flatMap_append, List.flatMap_cons]
  rw [hheld, hheld₁]
  rw [hheld] at hnd
  rw [List.nodup_append] at hnd
  obtain ⟨hndA, hndPB, hdisjA⟩ := hnd
  rw [List.nodup_append] at hndPB
  obtain ⟨hndP, hndB, hdisjPB⟩ := hndPB
  refine ⟨(List.Sublist.refl _).append ((List.filter_sublist _).append (List.Sublist.refl _)),
    ?_, ?_⟩
  · intro hmem
    rcases List.mem_append.mp hmem with hmem | hmem
    · exact hdisjA hmem (List.mem_append_left _ hm)
    · rcases List.mem_append.mp hmem with hmem | hmem
      · have := List.of_mem_filter hmem
        simp at this
      · exact hdisjPB hm hmem
  · intro x hx hxn
    rcases List.mem_append.mp hx with hx | hx
    · exact List.mem_append_left _ hx
    · rcases List.mem_append.mp hx with hx | hx
      · refine List.mem_append_right _ (List.mem_append_left _ ?_)
        exact List.mem_filter.mpr ⟨hx, by simpa using hxn⟩
      · exact List.mem_append_right _ (List.mem_append_right _ hx)

theorem flatMap_filter_perm (ps : List Player) (q : Player → Bool) :
    (ps.flatMap Player.numbers).Perm
      ((ps.filter q).flatMap Player.numbers
        ++ (ps.filter (fun a => !q a)).flatMap Player.numbers) := by
  induction ps with
  | nil => simp
  | cons a t iht =>
    by_cases hq : q a
    · rw [List.flatMap_cons, List.filter_cons_of_pos hq,
        List.filter_cons_of_neg (by simp [hq]), List.flatMap_cons, List.append_assoc]
      exact iht.append_left a.numbers
    · rw [List.flatMap_cons, List.filter_cons_of_neg (by simpa using hq),
        List.filter_cons_of_pos (by simp [hq]), List.flatMap_cons]
      have h1 : (a.numbers ++ t.flatMap Player.numbers).Perm
          (a.numbers ++ ((t.filter q).flatMap Player.numbers
            ++ (t.filter (fun x => !q x)).flatMap Player.numbers)) := iht.append_left _
      have h2 : (a.numbers ++ ((t.filter q).flatMap Player.numbers
            ++ (t.filter (fun x => !q x)).flatMap Player.numbers)).Perm
          ((t.filter q).flatMap Player.numbers
            ++ (a.numbers ++ (t.filter (fun x => !q x)).flatMap Player.numbers)) := by
        rw [← List.append_assoc, ← List.append_assoc]
        exact List.perm_append_comm.append_right _
      exact h1.trans h2

theorem filter_id_eq_not_bne (ps : List Player) (sid : String) :
    ps.filter (fun p => p.id == sid) = ps.filter (fun p => !(p.id != sid)) := by
  apply List.filter_congr
  intro p _
  simp [bne]

/-! ## Preservation of the playing invariant -/

theorem inv_of_fields {s s₁ : GState}
    (hstate : s₁.room.state = RoomState.playing → s.room.state = RoomState.playing)
    (htl : s₁.room.timeline = s.room.timeline)
    (hheld : heldNumbers s₁.room = heldNumbers s.room)
    (horig : s₁.orig = s.orig) (hgone : s₁.gone = s.gone)
    (h : Inv s) : Inv s₁ := by
  intro hst
  obtain ⟨a, b, c, d, e, f, g⟩ := h (hstate hst)
  rw [htl, hheld, horig, hgone]
  exact ⟨a, b, c, d, e, f, g⟩

theorem inv_join (s : GState) (sid name : String) (hostFlag : Bool)
    (h : Inv s) : Inv (stepJoinG s sid name hostFlag) := by
  obtain ⟨h1, h2, h3, h4, h5⟩ := joinRoom_fields s.room sid name hostFlag
  exact inv_of_fields (fun hst => h1 ▸ hst) h2 h5 rfl rfl h

theorem start_state_inv (r : GameRoom) (sid : String) (draws swaps : List Nat)
    (r₁ : GameRoom) (hands : List (List Int)) (eid : String) (ts : Int)
    (h : startResult r sid draws swaps = .ok (r₁, hands)) :
    Inv ⟨addGameEvent r₁ "game-started" eid ts, hands.flatten, []⟩ := by
  obtain ⟨hhost, hcnt, hcap, hgen, hr₁⟩ := startResult_ok_inv h
  obtain ⟨hlen, hnd, hsort, hrange⟩ := generateAllPlayerNumbers_ok hgen
  have hheld : heldNumbers (addGameEvent r₁ "game-started" eid ts) = hands.flatten := by
    rw [heldNumbers_addGameEvent]
    unfold heldNumbers
    rw [hr₁]
    exact assignHands_flatMap r.players hands hlen.symm
  have htl : (addGameEvent r₁ "game-started" eid ts).timeline = [] := by
    rw [addGameEvent_timeline, hr₁]
  intro _
  refine ⟨?_, ?_, ?_, ?_, ?_, ?_, ?_⟩
  · rw [htl]; exact List.nodup_nil
  · rw [htl]; exact List.chain'_nil
  · rw [hheld]; exact hnd
  · intro t ht
    rw [htl] at ht
    cases ht
  · intro t ht
    rw [htl] at ht
    cases ht
  · intro x _ hx
    cases hx
  · intro x
    rw [htl, hheld]
    simp

theorem inv_start (s : GState) (sid : String) (draws swaps : List Nat) (eid : String)
    (ts : Int) (h : Inv s) : Inv (stepStartG s sid draws swaps eid ts) := by
  unfold stepStartG
  cases hsr : startResult s.room sid draws swaps with
  | error e => exact h
  | ok rh =>
    obtain ⟨r₁, hands⟩ := rh
    exact start_state_inv s.room sid draws swaps r₁ hands eid ts hsr

theorem inv_play (s : GState) (sid : String) (n : Int) (e₁ e₂ : String) (ts : Int)
    (h : Inv s) : Inv (stepPlayG s sid n e₁ e₂ ts) := by
  obtain ⟨f1, f2, f3, f4, f5⟩ := playNumber_room s.room sid n e₁ e₂ ts
  have hroom : (stepPlayG s sid n e₁ e₂ ts).room = (playNumber s.room sid n e₁ e₂ ts).1 := rfl
  have horig : (stepPlayG s sid n e₁ e₂ ts).orig = s.orig := rfl
  have hgone : (stepPlayG s sid n e₁ e₂ ts).gone = s.gone := rfl
  cases hv : validateMove s.room sid n with
  | some e =>
    have hmm := makeMove_fail_room hv
    refine @inv_of_fields s (stepPlayG s sid n e₁ e₂ ts) ?_ ?_ ?_ horig hgone h
    · intro hst
      rw [hroom, f1, hmm] at hst
      by_cases hl : s.room.lives - 1 ≤ 0
      · exact absurd hst (by simp [hl])
      · simpa [hl] using hst
    · rw [hroom, f2, hmm]
    · show heldNumbers (stepPlayG s sid n e₁ e₂ ts).room = heldNumbers s.room
      unfold heldNumbers
      rw [hroom, f3, hmm]
  | none =>
    obtain ⟨hplaying, ⟨p, hf, hm⟩, hnt, hmin⟩ := (validateMove_none_iff s.room sid n).mp hv
    obtain ⟨g1, g2, g3, g4, g5⟩ := makeMove_ok_fields hv
    obtain ⟨Inodup, Ichain, Iheldnd, Ilt, Itg, Ihg, Iiff⟩ := h hplaying
    have hnheld : n ∈ heldNumbers s.room :=
      List.mem_flatMap.mpr ⟨p, List.mem_of_find?_eq_some hf, hm⟩
    have hdisj : ∀ x ∈ heldNumbers s.room, x ∉ s.room.timeline := by
      intro x hx hxt
      exact lt_irrefl x (Ilt x hxt x hx)
    have hminall : ∀ x ∈ heldNumbers s.room, n ≤ x := by
      intro x hx
      exact hmin x hx (hdisj x hx)
    obtain ⟨hsub, hnotin, hkeep⟩ := removeNumber_held hf Iheldnd hm
    have htl : (stepPlayG s sid n e₁ e₂ ts).room.timeline = s.room.timeline ++ [n] := by
      rw [hroom, f2, g1]
    have hheld : heldNumbers (stepPlayG s sid n e₁ e₂ ts).room
        = (removeNumberFromFirst s.room.players sid n).flatMap Player.numbers := by
      unfold heldNumbers
      rw [hroom, f3, g2]
    intro _
    rw [htl, hheld, horig, hgone]
    refine ⟨?_, ?_, ?_, ?_, ?_, ?_, ?_⟩
    · rw [List.nodup_append]
      refine ⟨Inodup, List.nodup_singleton n, ?_⟩
      intro a ha hmem
      simp only [List.mem_singleton] at hmem
      subst hmem
      exact hnt ha
    · rw [List.chain'_append]
      refine ⟨Ichain, List.chain'_singleton n, ?_⟩
      intro x hx y hy
      simp only [List.head?_cons, Option.mem_def, Option.some.injEq] at hy
      subst hy
      exact Ilt x (List.mem_of_mem_getLast? hx) n hnheld
    · exact hsub.nodup Iheldnd
    · intro t ht x hx
      have hxheld : x ∈ heldNumbers s.room := hsub.mem hx
      rcases List.mem_append.mp ht with ht | ht
      · exact Ilt t ht x hxheld
      · simp only [List.mem_singleton] at ht
        subst ht
        have hle : t ≤ x := hminall x hxheld
        have hne : x ≠ t := fun hxe => hnotin (hxe ▸ hx)
        exact lt_of_le_of_ne hle (Ne.symm hne)
    · intro t ht
      rcases List.mem_append.mp ht with ht | ht
      · exact Itg t ht
      · simp only [List.mem_singleton] at ht
        subst ht
        exact Ihg t hnheld
    · intro x hx
      exact Ihg x (hsub.mem hx)
    · intro x
      constructor
      · intro hxorig
        rcases (Iiff x).mp hxorig with hxt | hxh | hxg
        · exact Or.inl (List.mem_append_left _ hxt)
        · by_cases hxn : x = n
          · subst hxn
            exact Or.inl (List.mem_append_right _ (by simp))
          · exact Or.inr (Or.inl (hkeep x hxh hxn))
        · exact Or.inr (Or.inr hxg)
      · intro hx
        rcases hx with hxt | hxh | hxg
        · rcases List.mem_append.mp hxt with hxt | hxt
          · exact (Iiff x).mpr (Or.inl hxt)
          · simp only [List.mem_singleton] at hxt
            subst hxt
            exact (Iiff x).mpr (Or.inr (Or.inl hnheld))
        · exact (Iiff x).mpr (Or.inr (Or.inl (hsub.mem hxh)))
        · exact (Iiff x).mpr (Or.inr (Or.inr hxg))

theorem inv_leave (s : GState) (sid : String) (s₁ : GState)
    (h : stepLeaveG s sid = some s₁) (hinv : Inv s) : Inv s₁ := by
  unfold stepLeaveG at h
  cases hl : (handlePlayerLeave s.room sid).1 with
  | none =>
    rw [hl] at h
    cases h
  | some r₁ =>
    rw [hl] at h
    simp only [Option.some.injEq] at h
    subst h
    obtain ⟨hpl, hstf, htlf, hlvf, hmlf⟩ := handlePlayerLeave_some hl
    intro hst
    simp only at hst
    have hplaying : s.room.state = RoomState.playing := by rw [← hstf]; exact hst
    obtain ⟨Inodup, Ichain, Iheldnd, Ilt, Itg, Ihg, Iiff⟩ := hinv hplaying
    have hperm : (heldNumbers s.room).Perm
        (heldNumbers r₁
          ++ (s.room.players.filter (fun p => p.id == sid)).flatMap Player.numbers) := by
      have := flatMap_filter_perm s.room.players (fun p => p.id != sid)
      rw [filter_id_eq_not_bne]
      unfold heldNumbers
      rw [hpl]
      exact this
    have hndsplit := hperm.nodup_iff.mp Iheldnd
    rw [List.nodup_append] at hndsplit
    obtain ⟨hndk, hndd, hdisjkd⟩ := hndsplit
    have hdisjth : ∀ x ∈ s.room.timeline, x ∉ heldNumbers s.room := by
      intro x hx hxh
      exact lt_irrefl x (Ilt x hx x hxh)
    refine ⟨?_, ?_, ?_, ?_, ?_, ?_, ?_⟩
    · rw [htlf]; exact Inodup
    · rw [htlf]; exact Ichain
    · exact hndk
    · intro t ht x hx
      rw [htlf] at ht
      exact Ilt t ht x (hperm.mem_iff.mpr (List.mem_append_left _ hx))
    · intro t ht
      rw [htlf] at ht
      simp only [List.mem_append]
      rintro (hg | hd)
      · exact Itg t ht hg
      · exact hdisjth t ht (hperm.mem_iff.mpr (List.mem_append_right _ hd))
    · intro x hx
      simp only [List.mem_append]
      rintro (hg | hd)
      · exact Ihg x (hperm.mem_iff.mpr (List.mem_append_left _ hx)) hg
      · exact hdisjkd hx hd
    · intro x
      rw [htlf]
      constructor
      · intro hxorig
        rcases (Iiff x).mp hxorig with hxt | hxh | hxg
        · exact Or.inl hxt
        · rcases List.mem_append.mp (hperm.mem_iff.mp hxh) with hxk | hxd
          · exact Or.inr (Or.inl hxk)
          · exact Or.inr (Or.inr (List.mem_append_right _ hxd))
        · exact Or.inr (Or.inr (List.mem_append_left _ hxg))
      · rintro (hxt | hxh | hxg)
        · exact (Iiff x).mpr (Or.inl hxt)
        · exact (Iiff x).mpr (Or.inr (Or.inl (hperm.mem_iff.mpr (List.mem_append_left _ hxh))))
        · rcases List.mem_append.mp hxg with hxg | hxd
          · exact (Iiff x).mpr (Or.inr (Or.inr hxg))
          · exact (Iiff x).mpr
              (Or.inr (Or.inl (hperm.mem_iff.mpr (List.mem_append_right _ hxd))))

theorem inv_reset (s : GState) (sid eid : String) (ts : Int)
    (h : Inv s) : Inv (stepResetG s sid eid ts) := by
  rcases (resetGameHandler_cases s.room sid eid ts).1 with hr | hr
  · refine @inv_of_fields s (stepResetG s sid eid ts) ?_ ?_ ?_ rfl rfl h
    · intro hst
      rw [show (stepResetG s sid eid ts).room = (resetGameHandler s.room sid eid ts).1 from rfl,
        hr] at hst
      exact hst
    · rw [show (stepResetG s sid eid ts).room = (resetGameHandler s.room sid eid ts).1 from rfl,
        hr]
    · show heldNumbers (resetGameHandler s.room sid eid ts).1 = heldNumbers s.room
      rw [hr]
  · intro hst
    rw [show (stepResetG s sid eid ts).room = (resetGameHandler s.room sid eid ts).1 from rfl,
      hr] at hst
    cases hst

theorem inv_step {s s₁ : GState} (hstep : Step s s₁) (h : Inv s) : Inv s₁ := by
  cases hstep with
  | join sid name hostFlag => exact inv_join s sid name hostFlag h
  | start sid draws swaps eid ts => exact inv_start s sid draws swaps eid ts h
  | play sid n e₁ e₂ ts => exact inv_play s sid n e₁ e₂ ts h
  | leave s₂ sid hsl => exact inv_leave s sid s₁ hsl h
  | reset sid eid ts => exact inv_reset s sid eid ts h

theorem inv_reach {s s₁ : GState} (hreach : Reach s s₁) (h : Inv s) : Inv s₁ := by
  induction hreach with
  | refl => exact h
  | tail _ hstep ihr => exact inv_step hstep ihr

theorem freshlyStarted_inv {s : GState} (h : FreshlyStarted s) : Inv s := by
  obtain ⟨r, sid, draws, swaps, r₁, hands, eid, ts, hok, hroom, horig, hgone⟩ := h
  cases s with
  | mk room orig gone =>
    simp only at hroom horig hgone
    subst hroom
    subst horig
    subst hgone
    exact start_state_inv r sid draws swaps r₁ hands eid ts hok

/-! ## Preservation of the lives invariant -/

theorem livesInv_step {ml : Int} (hml : 1 ≤ ml) {s s₁ : GState} (hstep : Step s s₁)
    (h : LivesInv ml s) : LivesInv ml s₁ := by
  cases hstep with
  | join sid name hostFlag =>
    obtain ⟨h1, -, h3, h4, -⟩ := joinRoom_fields s.room sid name hostFlag
    refine ⟨?_, ?_⟩
    · show (joinRoom s.room sid name hostFlag).1.maxLives = ml
      rw [h4]
      exact h.1
    · intro hst
      have hst₁ : (joinRoom s.room sid name hostFlag).1.state = RoomState.playing := hst
      rw [h1] at hst₁
      show 1 ≤ (joinRoom s.room sid name hostFlag).1.lives
      rw [h3]
      exact h.2 hst₁
  | start sid draws swaps eid ts =>
    show LivesInv ml (stepStartG s sid draws swaps eid ts)
    unfold stepStartG
    cases hsr : startResult s.room sid draws swaps with
    | error e => exact h
    | ok rh =>
      obtain ⟨r₁, hands⟩ := rh
      obtain ⟨hhost, hcnt, hcap, hgen, hr₁⟩ := startResult_ok_inv hsr
      refine ⟨?_, fun _ => ?_⟩
      · show (addGameEvent r₁ "game-started" eid ts).maxLives = ml
        rw [addGameEvent_maxLives, hr₁]
        exact h.1
      · show 1 ≤ (addGameEvent r₁ "game-started" eid ts).lives
        rw [addGameEvent_lives, hr₁]
        have hmx : s.room.maxLives = ml := h.1
        exact le_of_le_of_eq hml hmx.symm
  | play sid n e₁ e₂ ts =>
    obtain ⟨f1, -, -, f4, f5⟩ := playNumber_room s.room sid n e₁ e₂ ts
    cases hv : validateMove s.room sid n with
    | some e =>
      have hmm := makeMove_fail_room hv
      refine ⟨?_, ?_⟩
      · show (playNumber s.room sid n e₁ e₂ ts).1.maxLives = ml
        rw [f5, hmm]
        exact h.1
      · intro hst
        have hst₁ : (playNumber s.room sid n e₁ e₂ ts).1.state = RoomState.playing := hst
        rw [f1, hmm] at hst₁
        show 1 ≤ (playNumber s.room sid n e₁ e₂ ts).1.lives
        rw [f4, hmm]
        by_cases hl : s.room.lives - 1 ≤ 0
        · exfalso
          simp only [hl, if_pos] at hst₁
          exact absurd hst₁ (by decide)
        · show 1 ≤ s.room.lives - 1
          omega
    | none =>
      obtain ⟨-, -, g3, g4, -⟩ := makeMove_ok_fields hv
      have hplaying : s.room.state = RoomState.playing :=
        ((validateMove_none_iff _ _ _).mp hv).1
      refine ⟨?_, fun _ => ?_⟩
      · show (playNumber s.room sid n e₁ e₂ ts).1.maxLives = ml
        rw [f5, g4]
        exact h.1
      · show 1 ≤ (playNumber s.room sid n e₁ e₂ ts).1.lives
        rw [f4, g3]
        exact h.2 hplaying
  | leave s₂ sid hsl =>
    unfold stepLeaveG at hsl
    cases hl : (handlePlayerLeave s.room sid).1 with
    | none =>
      rw [hl] at hsl
      cases hsl
    | some r₁ =>
      rw [hl] at hsl
      simp only [Option.some.injEq] at hsl
      subst hsl
      obtain ⟨-, hstf, -, hlvf, hmlf⟩ := handlePlayerLeave_some hl
      refine ⟨?_, ?_⟩
      · show r₁.maxLives = ml
        rw [hmlf]
        exact h.1
      · intro hst
        have hplaying : s.room.state = RoomState.playing := by
          rw [← hstf]
          exact hst
        show 1 ≤ r₁.lives
        rw [hlvf]
        exact h.2 hplaying
  | reset sid eid ts =>
    obtain ⟨hcase, hmx⟩ := resetGameHandler_cases s.room sid eid ts
    refine ⟨?_, ?_⟩
    · show (resetGameHandler s.room sid eid ts).1.maxLives = ml
      rw [hmx]
      exact h.1
    · intro hst
      have hst₁ : (resetGameHandler s.room sid eid ts).1.state = RoomState.playing := hst
      rcases hcase with hr | hr
      · rw [hr] at hst₁
        show 1 ≤ (resetGameHandler s.room sid eid ts).1.lives
        rw [hr]
        exact h.2 hst₁
      · rw [hr] at hst₁
        exact absurd hst₁ (by decide)

theorem livesInv_reach {ml : Int} (hml : 1 ≤ ml) {s s₁ : GState} (hreach : Reach s s₁)
    (h : LivesInv ml s) : LivesInv ml s₁ := by
  induction hreach with
  | refl => exact h
  | tail _ hstep ihr => exact livesInv_step hml hstep ihr

/-! ## C4: lives accounting -/

/-- C4 (amended).  Along every operation sequence from a freshly created
room with a validated configuration (maxLives at least 1): a playing room
always has at least one life, so lives are never negative while playing;
every single makeMove leaves lives unchanged or lower (a re-start while
playing, however, resets them to maxLives); and any makeMove on which lives
change and land at 0 or below puts the room in game-over on that same
transition.  In game-over, further rejected moves keep decrementing, so
lives do drop below 0 there (see the counterexample). -/
theorem lives_invariant (roomId : String) (ml npp : Int) (s : GState)
    (hml : 1 ≤ ml) (hreach : Reach (initialGState roomId ml npp) s) :
    (s.room.state = .playing → 1 ≤ s.room.lives) ∧
    (∀ r pid n, (makeMove r pid n).1.lives ≤ r.lives) ∧
    (∀ r pid n, (makeMove r pid n).1.lives ≤ 0 → (makeMove r pid n).1.lives ≠ r.lives →
      (makeMove r pid n).1.state = .gameOver) := by
  refine ⟨?_, ?_, ?_⟩
  · have hinit : LivesInv ml (initialGState roomId ml npp) :=
      ⟨rfl, fun hst => by simp [initialGState, createRoom] at hst⟩
    exact (livesInv_reach hml hreach hinit).2
  · intro r pid n
    cases hv : validateMove r pid n with
    | some e =>
      rw [makeMove_fail_room hv]
      show r.lives - 1 ≤ r.lives
      omega
    | none =>
      rw [(makeMove_ok_fields hv).2.2.1]
  · intro r pid n hle hne
    cases hv : validateMove r pid n with
    | none =>
      exact absurd (makeMove_ok_fields hv).2.2.1 hne
    | some e =>
      have hmm := makeMove_fail_room hv
      rw [hmm] at hle ⊢
      have hl : r.lives - 1 ≤ 0 := hle
      show (if r.lives - 1 ≤ 0 then RoomState.gameOver else r.state) = RoomState.gameOver
      rw [if_pos hl]

/-- C4 counterexample.  First chain: maxLives 1; after the game is lost a
further rejected play-number event drives lives to -1, refuting that lives
are never negative in any state.  Second chain: a playing room with one
life left accepts a restart from the host, raising lives back to 2 with the
state playing before and after, refuting monotonicity of lives under every
operation while playing. -/
theorem lives_claim_counterexample :
    (Reach (initialGState "R" 1 1) c4bad ∧ c4bad.room.lives = -1 ∧ c4bad.room.lives < 0) ∧
    (Reach (initialGState "R2" 2 1) c4mid ∧
     Step c4mid (stepStartG c4mid "h" [2, 6] [0] "g1" 0) ∧
     c4mid.room.state = .playing ∧
     (stepStartG c4mid "h" [2, 6] [0] "g1" 0).room.state = .playing ∧
     c4mid.room.lives < (stepStartG c4mid "h" [2, 6] [0] "g1" 0).room.lives) := by
  constructor
  · refine ⟨?_, by decide, by decide⟩
    exact Relation.ReflTransGen.tail (Relation.ReflTransGen.tail (Relation.ReflTransGen.tail
      (Relation.ReflTransGen.tail (Relation.ReflTransGen.tail Relation.ReflTransGen.refl
        (Step.join c4s0 "h" "Hope" true)) (Step.join c4s1 "b" "Bee" false))
      (Step.start c4s2 "h" [2, 6] [0] "e1" 0)) (Step.play c4s3 "b" 7 "e2" "e3" 0))
      (Step.play c4s4 "b" 7 "e4" "e5" 0)
  · refine ⟨?_, Step.start c4mid "h" [2, 6] [0] "g1" 0, by decide, by decide, by decide⟩
    exact Relation.ReflTransGen.tail (Relation.ReflTransGen.tail (Relation.ReflTransGen.tail
      (Relation.ReflTransGen.tail Relation.ReflTransGen.refl
        (Step.join c4t0 "h" "Hope" true)) (Step.join c4t1 "b" "Bee" false))
      (Step.start c4t2 "h" [2, 6] [0] "f1" 0)) (Step.play c4t3 "b" 7 "f2" "f3" 0)

/-- Witness for C4 at the concrete freshly started chain. -/
theorem lives_invariant_witness : 1 ≤ c4t3.room.lives :=
  (lives_invariant "R2" 2 1 c4t3 (by decide)
    (Relation.ReflTransGen.tail (Relation.ReflTransGen.tail (Relation.ReflTransGen.tail
      Relation.ReflTransGen.refl (Step.join c4t0 "h" "Hope" true))
      (Step.join c4t1 "b" "Bee" false)) (Step.start c4t2 "h" [2, 6] [0] "f1" 0))).1
    (by decide)

/-! ## C1: the timeline invariant -/

theorem c4t3_fresh : FreshlyStarted c4t3 :=
  ⟨c4t2.room, "h", [2, 6], [0],
   ⟨"R2", [⟨"h", "Hope", [7]⟩, ⟨"b", "Bee", [3]⟩], [], 2, 2, 1, .playing, "h", []⟩,
   [[7], [3]], "f1", 0, by rfl, by decide, by decide, by decide⟩

/-- C1 (amended).  From any freshly started game, in every reachable state
that is playing: the timeline has no duplicates, is strictly increasing,
and a number sits on the timeline exactly when it was originally dealt, is
no longer held in any current hand, and did not depart with a leaving
player.  (Without the last subtraction the equality fails as soon as a
player leaves mid-game: see the counterexample.) -/
theorem timeline_invariant (s₀ s : GState) (h₀ : FreshlyStarted s₀) (hreach : Reach s₀ s)
    (hplay : s.room.state = .playing) :
    s.room.timeline.Nodup ∧
    s.room.timeline.Chain' (· < ·) ∧
    (∀ x : Int, x ∈ s.room.timeline ↔
      (x ∈ s.orig ∧ x ∉ heldNumbers s.room ∧ x ∉ s.gone)) := by
  obtain ⟨Inodup, Ichain, -, Ilt, Itg, -, Iiff⟩ := inv_reach hreach (freshlyStarted_inv h₀) hplay
  refine ⟨Inodup, Ichain, ?_⟩
  intro x
  constructor
  · intro hx
    exact ⟨(Iiff x).mpr (Or.inl hx),
      fun hh => lt_irrefl x (Ilt x hx x hh), Itg x hx⟩
  · rintro ⟨ho, hh, hg⟩
    rcases (Iiff x).mp ho with hcase | hcase | hcase
    · exact hcase
    · exact absurd hcase hh
    · exact absurd hcase hg

/-- C1 counterexample: in the freshly started chain the non-host player
leaves while the room is playing.  The room stays playing, and the dealt
number 3 is neither still held nor on the timeline, so the timeline (empty)
does not equal the dealt numbers minus the held ones. -/
theorem timeline_equality_counterexample :
    FreshlyStarted c4t3 ∧ Step c4t3 c1left ∧ c1left.room.state = .playing ∧
    (3 : Int) ∈ c1left.orig ∧ (3 : Int) ∉ heldNumbers c1left.room ∧
    (3 : Int) ∉ c1left.room.timeline :=
  ⟨c4t3_fresh, Step.leave c4t3 c1left "b" (by decide), by decide, by decide, by decide,
   by decide⟩

/-- Witness for C1 at the freshly started chain itself. -/
theorem timeline_invariant_witness :
    c4t3.room.timeline.Nodup ∧ c4t3.room.timeline.Chain' (· < ·) :=
  ⟨(timeline_invariant c4t3 c4t3 c4t3_fresh Relation.ReflTransGen.refl (by decide)).1,
   (timeline_invariant c4t3 c4t3 c4t3_fresh Relation.ReflTransGen.refl (by decide)).2.1⟩

end BlindOrder
